import Mathlib

/-!
Verification of the in-process task scheduler of the repository
(`src/services/task_manager.py`) against its natural-language specification.

The Python code is shallowly embedded as pure Lean functions over an explicit
scheduler state `MState`.  Conventions of the embedding:

* `datetime.utcnow()` and `time.time() * 1000` are modelled by a single
  integer clock `MState.now`, advanced by an explicit `Op.advance` step; the
  task id `f"{task_type}_{int(time.time()*1000)}"` becomes
  `taskType ++ "_" ++ toString now`, so two creations at the same clock value
  for the same type collide, exactly as in the source.
* Python `Task` objects are mutable heap objects shared between the task
  table, the priority queue and the running-futures map.  We model object
  identity explicitly: `MState.store` is the object heap, mapping an object
  id (`Nat`, allocated by `nextOid`) to the current `Task` record; the task
  table `MState.tasks` maps the string task id to an object id, and queue
  entries and the pool hold object ids.  An id-colliding `create_task`
  overwrites the table mapping while the orphaned old object survives in the
  store, as in Python.
* `queue.PriorityQueue` delegates to `heapq`; `heapq.heappush`, `heapq.heappop`
  and the internal `_siftdown` / `_siftup` are translated literally below
  (structural recursion on an explicit fuel argument that is always sufficient
  at the call sites).  `Task.__lt__` compares only `priority.value` with `>`,
  which becomes `qlt` on queue entries carrying the (immutable) priority.
* The opaque task bodies are not modelled: a running body's outcome is an
  `Except String String` (error message or opaque result) supplied by the
  `Op.finish` step, which performs exactly the bookkeeping of
  `TaskManager._run_task`.  `_check_completed_tasks` only removes futures
  that are already done; its removal is folded into `Op.finish` (`reap`).
* `concurrent.futures.Future.cancel` never succeeds for a future whose body
  has started; dispatched futures start immediately on the pool, so the
  `RUNNING` branch of `cancel_task` is modelled as returning `False` without
  touching the state.
* Every assignment `task.status = X` in the source emits an `Event` recording
  the observed status transition; theorems about "observed transitions"
  quantify over these events.
-/

set_option linter.unusedVariables false

namespace Scheduler

/-! ### Task data model (`TaskStatus`, `TaskPriority`, `Task`) -/

inductive TaskStatus where
  | pending
  | queued
  | running
  | completed
  | failed
  | cancelled
  | retrying
deriving DecidableEq, Repr

/-- `TaskPriority` values (`LOW = 1` … `CRITICAL = 5`); the scheduler only
ever consumes `priority.value`, so priorities are embedded as their values. -/
def TaskPriority.LOW : Nat := 1
def TaskPriority.NORMAL : Nat := 2
def TaskPriority.HIGH : Nat := 3
def TaskPriority.URGENT : Nat := 4
def TaskPriority.CRITICAL : Nat := 5

/-- The `Task` dataclass.  `function`, `args`, `kwargs`, `metadata` and
`result` are opaque to the scheduler; `function` is modelled by registry
membership plus the outcome supplied at completion, and `result` keeps the
opaque value delivered by a successful body.  Times are integers on the
single model clock. -/
structure Task where
  id : String
  name : String
  taskType : String
  priority : Nat
  status : TaskStatus
  createdAt : Nat
  scheduledAt : Nat
  startedAt : Option Nat
  completedAt : Option Nat
  retryCount : Nat
  maxRetries : Nat
  retryDelay : Nat
  timeout : Nat
  dependencies : List String
  result : Option String
  error : Option String
deriving DecidableEq, Repr

/-! ### Association-list helpers (Python `dict` with insertion order) -/

/-- `d.get(k)`. -/
def assocFind {α : Type} (l : List (String × α)) (k : String) : Option α :=
  match l with
  | [] => none
  | (k1, v) :: rest => if k1 = k then some v else assocFind rest k

/-- `d[k] = v`: replace in place if the key is present, else append. -/
def assocPut {α : Type} (l : List (String × α)) (k : String) (v : α) :
    List (String × α) :=
  match l with
  | [] => [(k, v)]
  | (k1, v1) :: rest =>
      if k1 = k then (k1, v) :: rest else (k1, v1) :: assocPut rest k v

/-- Object-heap lookup (`Nat`-keyed). -/
def oidFind (l : List (Nat × Task)) (k : Nat) : Option Task :=
  match l with
  | [] => none
  | (k1, v) :: rest => if k1 = k then some v else oidFind rest k

/-- Object-heap update. -/
def oidPut (l : List (Nat × Task)) (k : Nat) (v : Task) : List (Nat × Task) :=
  match l with
  | [] => [(k, v)]
  | (k1, v1) :: rest =>
      if k1 = k then (k1, v) :: rest else (k1, v1) :: oidPut rest k v

/-- `l[i]` with a default for the (unreachable) out-of-range case. -/
def listGetD {α : Type} (l : List α) (i : Nat) (d : α) : α :=
  match l, i with
  | [], _ => d
  | x :: _, 0 => x
  | _ :: rest, i + 1 => listGetD rest i d

/-- `l[i] = v`. -/
def listSet {α : Type} (l : List α) (i : Nat) (v : α) : List α :=
  match l, i with
  | [], _ => []
  | _ :: rest, 0 => v :: rest
  | x :: rest, i + 1 => x :: listSet rest i v

/-! ### `heapq`, specialised to priority-queue entries

A queue entry records the object id of the queued `Task` together with the
(immutable) priority it is compared by; `Task.__lt__` reads
`self.priority.value > other.priority.value`. -/

structure QEntry where
  priority : Nat
  oid : Nat
deriving DecidableEq, Repr

/-- `Task.__lt__`: higher priority value compares as smaller for the
min-heap. -/
def qlt (a b : QEntry) : Bool := b.priority < a.priority

/-- `heapq._siftdown(heap, startpos, pos)` with `newitem = heap[pos]` passed
explicitly.  Each iteration strictly decreases `pos`, so fuel `pos` is always
sufficient; the fuel-exhausted branch is unreachable at the call sites. -/
def siftdownFuel (fuel : Nat) (heap : List QEntry) (startpos pos : Nat)
    (newitem : QEntry) : List QEntry :=
  match fuel with
  | 0 => listSet heap pos newitem
  | fuel + 1 =>
    if startpos < pos then
      let parentpos := (pos - 1) / 2
      let parent := listGetD heap parentpos newitem
      if qlt newitem parent then
        siftdownFuel fuel (listSet heap pos parent) startpos parentpos newitem
      else
        listSet heap pos newitem
    else
      listSet heap pos newitem

/-- The descending loop of `heapq._siftup`: move the smaller child up until a
leaf is reached; returns the array and the final hole position.  `pos`
strictly increases and stays below `endpos`, so fuel `endpos` suffices. -/
def siftupLoop (fuel : Nat) (heap : List QEntry) (pos : Nat) (newitem : QEntry)
    (endpos : Nat) : List QEntry × Nat :=
  match fuel with
  | 0 => (heap, pos)
  | fuel + 1 =>
    let childpos := 2 * pos + 1
    if childpos < endpos then
      let rightpos := childpos + 1
      let childpos :=
        if rightpos < endpos &&
            !(qlt (listGetD heap childpos newitem) (listGetD heap rightpos newitem)) then
          rightpos
        else childpos
      siftupLoop fuel (listSet heap pos (listGetD heap childpos newitem))
        childpos newitem endpos
    else (heap, pos)

/-- `heapq._siftup(heap, pos)`. -/
def siftup (heap : List QEntry) (pos : Nat) : List QEntry :=
  let endpos := heap.length
  let newitem := listGetD heap pos ⟨0, 0⟩
  let r := siftupLoop endpos heap pos newitem endpos
  siftdownFuel r.2 (listSet r.1 r.2 newitem) pos r.2 newitem

/-- `heapq.heappush`. -/
def heappush (heap : List QEntry) (item : QEntry) : List QEntry :=
  let heap := heap ++ [item]
  siftdownFuel (heap.length - 1) heap 0 (heap.length - 1) item

/-- `heapq.heappop` (`none` on an empty heap, where CPython raises). -/
def heappop (heap : List QEntry) : Option (QEntry × List QEntry) :=
  match heap.getLast? with
  | none => none
  | some lastelt =>
    let rest := heap.dropLast
    if rest.isEmpty then some (lastelt, rest)
    else some (listGetD rest 0 lastelt, siftup (listSet rest 0 lastelt) 0)

/-! ### Scheduler state (`TaskManager.__init__`) and observed transitions -/

/-- Performance-metrics counters (`TaskManager.metrics`).  The derived float
fields (`average_execution_time`, `tasks_per_minute`, `success_rate`) are
computed on read in `get_metrics` from these counters and are not state. -/
structure Metrics where
  totalTasksCreated : Nat
  totalTasksCompleted : Nat
  totalTasksFailed : Nat
  totalExecutionTime : Nat
deriving DecidableEq, Repr

/-- An observed status transition: some `task.status = dst` assignment was
executed on object `oid` whose status was `src` just before. -/
structure Event where
  oid : Nat
  src : TaskStatus
  dst : TaskStatus
deriving DecidableEq, Repr

/-- The mutable state of a `TaskManager`:

* `store` — the Python object heap restricted to `Task` objects
  (`nextOid` allocates fresh object identities);
* `tasks` — `self.tasks : Dict[str, Task]` (values are object ids);
* `taskQueue` — `self.task_queue`'s underlying `heapq` list;
* `runningTasks` — `self.running_tasks : Dict[str, Future]`, each future
  identified by the object id its `_run_task` call owns;
* `executing` — the object ids whose `_run_task` bodies have been submitted
  and have not finished (the live pool work, independent of the
  `running_tasks` dict, whose entries can be overwritten);
* `registry` — the keys of `self.task_registry`;
* `now` — the model clock. -/
structure MState where
  maxWorkers : Nat
  nextOid : Nat
  store : List (Nat × Task)
  tasks : List (String × Nat)
  taskQueue : List QEntry
  runningTasks : List (String × Nat)
  executing : List Nat
  registry : List String
  metrics : Metrics
  now : Nat
deriving DecidableEq, Repr

/-- The task types registered by `_register_default_tasks`. -/
def defaultRegistry : List String :=
  ["automation_cycle", "process_messages", "validate_system", "cleanup_data",
   "generate_report", "account_rotation", "health_check"]

/-- `TaskManager(max_workers)` started at clock value `n0`. -/
def initState (maxWorkers n0 : Nat) : MState :=
  { maxWorkers := maxWorkers
    nextOid := 0
    store := []
    tasks := []
    taskQueue := []
    runningTasks := []
    executing := []
    registry := defaultRegistry
    metrics := ⟨0, 0, 0, 0⟩
    now := n0 }

/-- Read a task object. -/
def getTaskObj (s : MState) (oid : Nat) : Option Task := oidFind s.store oid

/-- `TaskManager.get_task`. -/
def get_task (s : MState) (taskId : String) : Option Task :=
  (assocFind s.tasks taskId).bind (getTaskObj s)

/-- Overwrite a task object in the heap. -/
def writeTask (s : MState) (oid : Nat) (t : Task) : MState :=
  { s with store := oidPut s.store oid t }

/-- `TaskManager._dependencies_met`. -/
def dependencies_met (s : MState) (t : Task) : Bool :=
  t.dependencies.all fun depId =>
    match get_task s depId with
    | some dep => dep.status = TaskStatus.completed
    | none => false

/-- `TaskManager._queue_task`: set the status to `QUEUED` and push the object
onto the priority queue. -/
def queue_task (s : MState) (oid : Nat) : MState × List Event :=
  match getTaskObj s oid with
  | none => (s, [])
  | some t =>
    let s1 := writeTask s oid { t with status := TaskStatus.queued }
    ({ s1 with taskQueue := heappush s1.taskQueue ⟨t.priority, oid⟩ },
     [⟨oid, t.status, TaskStatus.queued⟩])

/-- `TaskManager.create_task`.  `hasFunction` records whether an explicit
`function` argument was passed (the callable itself is opaque).  Returns the
task id, the new state and the emitted transition events, or the
`ValueError` message. -/
def create_task (s : MState) (name taskType : String) (hasFunction : Bool)
    (priority : Nat) (scheduledAt : Option Nat) (maxRetries : Nat)
    (timeout : Nat) (dependencies : List String) :
    Except String (String × MState × List Event) :=
  let taskId := taskType ++ "_" ++ toString s.now
  if !hasFunction && !(s.registry.contains taskType) then
    Except.error ("Unknown task type: " ++ taskType)
  else
    let t : Task :=
      { id := taskId
        name := name
        taskType := taskType
        priority := priority
        status := TaskStatus.pending
        createdAt := s.now
        scheduledAt := scheduledAt.getD s.now
        startedAt := none
        completedAt := none
        retryCount := 0
        maxRetries := maxRetries
        retryDelay := 60
        timeout := timeout
        dependencies := dependencies
        result := none
        error := none }
    let oid := s.nextOid
    let s1 := { s with
      nextOid := oid + 1
      store := oidPut s.store oid t
      tasks := assocPut s.tasks taskId oid
      metrics := { s.metrics with
        totalTasksCreated := s.metrics.totalTasksCreated + 1 } }
    if dependencies_met s1 t then
      let (s2, evs) := queue_task s1 oid
      Except.ok (taskId, s2, evs)
    else
      Except.ok (taskId, s1, [])

/-- `TaskManager.cancel_task`.  The `RUNNING` branch asks
`future.cancel()`, which fails for a future whose body has started; since
dispatched futures start immediately on the pool, it returns `False` and the
branch leaves the state unchanged. -/
def cancel_task (s : MState) (taskId : String) : Bool × MState × List Event :=
  match assocFind s.tasks taskId with
  | none => (false, s, [])
  | some oid =>
    match getTaskObj s oid with
    | none => (false, s, [])
    | some t =>
      if t.status = TaskStatus.pending ∨ t.status = TaskStatus.queued then
        (true, writeTask s oid { t with status := TaskStatus.cancelled },
         [⟨oid, t.status, TaskStatus.cancelled⟩])
      else
        (false, s, [])

/-- `TaskManager.retry_task`. -/
def retry_task (s : MState) (taskId : String) : Bool × MState × List Event :=
  match assocFind s.tasks taskId with
  | none => (false, s, [])
  | some oid =>
    match getTaskObj s oid with
    | none => (false, s, [])
    | some t =>
      if t.status ≠ TaskStatus.failed then (false, s, [])
      else if t.maxRetries ≤ t.retryCount then (false, s, [])
      else
        let rc := t.retryCount + 1
        let retryDelay := t.retryDelay * 2 ^ (rc - 1)
        let t2 := { t with
          status := TaskStatus.retrying
          retryCount := rc
          error := none
          scheduledAt := s.now + retryDelay }
        let s1 := writeTask s oid t2
        let ev1 : Event := ⟨oid, t.status, TaskStatus.retrying⟩
        if dependencies_met s1 t2 then
          let r := queue_task s1 oid
          (true, r.1, ev1 :: r.2)
        else
          (true, s1, [ev1])

/-- Loop body of `TaskManager._check_scheduled_tasks`: queue a `PENDING` task
whose schedule has elapsed and whose dependencies are met.  (`current_time`
never changes inside the loop, so reading `acc.1.now` matches the source's
snapshot.) -/
def scanStep (acc : MState × List Event) (oid : Nat) : MState × List Event :=
  match getTaskObj acc.1 oid with
  | none => acc
  | some t =>
    if t.status = TaskStatus.pending ∧ t.scheduledAt ≤ acc.1.now ∧
        dependencies_met acc.1 t then
      let (s2, evs) := queue_task acc.1 oid
      (s2, acc.2 ++ evs)
    else acc

/-- `TaskManager._check_scheduled_tasks`: scan the task table (in insertion
order). -/
def check_scheduled_tasks (s : MState) : MState × List Event :=
  (s.tasks.map Prod.snd).foldl scanStep (s, [])

/-- Loop body of `TaskManager._check_dependent_tasks`. -/
def depStep (completedId : String) (acc : MState × List Event) (oid : Nat) :
    MState × List Event :=
  match getTaskObj acc.1 oid with
  | none => acc
  | some t =>
    if t.status = TaskStatus.pending ∧ completedId ∈ t.dependencies ∧
        dependencies_met acc.1 t then
      let (s2, evs) := queue_task acc.1 oid
      (s2, acc.2 ++ evs)
    else acc

/-- `TaskManager._check_dependent_tasks`. -/
def check_dependent_tasks (s : MState) (completedId : String) :
    MState × List Event :=
  (s.tasks.map Prod.snd).foldl (depStep completedId) (s, [])

/-- `TaskManager._execute_task`: mark the popped object `RUNNING`, record the
start time, submit `_run_task` to the pool and remember the future under the
object's task id. -/
def execute_task (s : MState) (oid : Nat) : MState × List Event :=
  match getTaskObj s oid with
  | none => (s, [])
  | some t =>
    let s1 := writeTask s oid
      { t with status := TaskStatus.running, startedAt := some s.now }
    ({ s1 with
        runningTasks := assocPut s1.runningTasks t.id oid
        executing := s1.executing ++ [oid] },
     [⟨oid, t.status, TaskStatus.running⟩])

/-- Remove a finished future: `_check_completed_tasks` pops the
`running_tasks` entries whose futures are done, and the pool slot is freed. -/
def reap (s : MState) (oid : Nat) : MState :=
  { s with
      executing := s.executing.erase oid
      runningTasks := s.runningTasks.filter fun p => p.2 ≠ oid }

/-- `TaskManager._run_task`, executed by a pool worker for the object `oid`;
`outcome` is the opaque body's result (`Except.error` when the body raised).
On success: record result and completion, bump the completion metrics and
re-evaluate dependents.  On failure: record the error, mark `FAILED`, bump
the failure counter and auto-retry via `retry_task` when retries remain. -/
def finishTask (s : MState) (oid : Nat) (outcome : Except String String) :
    MState × List Event :=
  if oid ∈ s.executing then
    match getTaskObj s oid with
    | none => (s, [])
    | some t =>
      match outcome with
      | Except.ok res =>
        let s1 := writeTask s oid
          { t with
              result := some res
              status := TaskStatus.completed
              completedAt := some s.now }
        let executionTime := s.now - t.startedAt.getD s.now
        let s2 := { s1 with metrics := { s1.metrics with
          totalExecutionTime := s1.metrics.totalExecutionTime + executionTime
          totalTasksCompleted := s1.metrics.totalTasksCompleted + 1 } }
        let r3 := check_dependent_tasks s2 t.id
        (reap r3.1 oid, ⟨oid, t.status, TaskStatus.completed⟩ :: r3.2)
      | Except.error msg =>
        let s1 := writeTask s oid
          { t with
              error := some msg
              status := TaskStatus.failed
              completedAt := some s.now }
        let s2 := { s1 with metrics := { s1.metrics with
          totalTasksFailed := s1.metrics.totalTasksFailed + 1 } }
        let r3 :=
          if t.retryCount < t.maxRetries then
            ((retry_task s2 t.id).2.1, (retry_task s2 t.id).2.2)
          else (s2, [])
        (reap r3.1 oid, ⟨oid, t.status, TaskStatus.failed⟩ :: r3.2)
  else (s, [])

/-- One iteration of `TaskManager._worker_loop`: promote ready tasks, then, if
the queue is non-empty and a worker is free, pop one task and dispatch it
(finished futures are reaped by `finishTask`). -/
def tick (s : MState) : MState × List Event :=
  let r := check_scheduled_tasks s
  if r.1.taskQueue ≠ [] ∧ r.1.runningTasks.length < r.1.maxWorkers then
    match heappop r.1.taskQueue with
    | none => r
    | some (e, rest) =>
      let r2 := execute_task { r.1 with taskQueue := rest } e.oid
      (r2.1, r.2 ++ r2.2)
  else r

/-! ### The operations visible to the environment -/

/-- An externally observable step of the scheduler: a coordinating-loop
iteration, the clock advancing, one of the boundary operations, or a pool
worker finishing `_run_task` for object `oid` with the body's outcome. -/
inductive Op where
  | tick
  | advance (dt : Nat)
  | create (name taskType : String) (hasFunction : Bool) (priority : Nat)
      (scheduledAt : Option Nat) (maxRetries timeout : Nat)
      (deps : List String)
  | cancel (taskId : String)
  | retry (taskId : String)
  | finish (oid : Nat) (outcome : Except String String)
deriving Repr

/-- Apply one step; a `create` that raises `ValueError` leaves the state
unchanged (the exception propagates to the caller before any mutation). -/
def applyOp (s : MState) (op : Op) : MState × List Event :=
  match op with
  | Op.tick => tick s
  | Op.advance dt => ({ s with now := s.now + dt }, [])
  | Op.create name taskType hasFunction priority scheduledAt maxRetries
      timeout deps =>
    match create_task s name taskType hasFunction priority scheduledAt
        maxRetries timeout deps with
    | Except.ok (_, s2, evs) => (s2, evs)
    | Except.error _ => (s, [])
  | Op.cancel taskId =>
    let r := cancel_task s taskId
    (r.2.1, r.2.2)
  | Op.retry taskId =>
    let r := retry_task s taskId
    (r.2.1, r.2.2)
  | Op.finish oid outcome => finishTask s oid outcome

/-- Run a list of steps, collecting all emitted transition events. -/
def runOps (s : MState) (ops : List Op) : MState × List Event :=
  ops.foldl
    (fun acc op =>
      let (s2, evs) := applyOp acc.1 op
      (s2, acc.2 ++ evs))
    (s, [])

/-! ### Derived notions used by the specification claims -/

/-- The transition edges allowed by §4.1 of the specification:
Pending→Queued, Queued→Running, Running→Completed, Running→Failed,
Failed→Retrying, Retrying→Pending, Pending→Cancelled, Queued→Cancelled,
Running→Cancelled. -/
def specEdge : TaskStatus → TaskStatus → Bool
  | TaskStatus.pending, TaskStatus.queued => true
  | TaskStatus.queued, TaskStatus.running => true
  | TaskStatus.running, TaskStatus.completed => true
  | TaskStatus.running, TaskStatus.failed => true
  | TaskStatus.failed, TaskStatus.retrying => true
  | TaskStatus.retrying, TaskStatus.pending => true
  | TaskStatus.pending, TaskStatus.cancelled => true
  | TaskStatus.queued, TaskStatus.cancelled => true
  | TaskStatus.running, TaskStatus.cancelled => true
  | _, _ => false

/-- The edges the code actually realises: the §4.1 edges together with
Retrying→Queued (a retried task whose dependencies are met is queued
directly, never passing through Pending) and Cancelled→Running (a task
cancelled while sitting in the queue is still popped and dispatched). -/
def extendedEdge (a b : TaskStatus) : Bool :=
  specEdge a b ||
    (match a, b with
     | TaskStatus.retrying, TaskStatus.queued => true
     | TaskStatus.cancelled, TaskStatus.running => true
     | _, _ => false)

/-- An event recording a transition into `FAILED`. -/
def isFailureEvent (e : Event) : Bool := e.dst = TaskStatus.failed

/-- An event recording a transition into `QUEUED` (a promotion). -/
def isQueueEvent (e : Event) : Bool := e.dst = TaskStatus.queued

/-- Number of task objects currently in terminal `FAILED` state. -/
def failedTaskCount (s : MState) : Nat :=
  (s.store.filter fun p => p.2.status = TaskStatus.failed).length

/-- The object ids currently sitting in the priority queue. -/
def queueOids (s : MState) : List Nat := s.taskQueue.map QEntry.oid

/-- The state after a list of steps (ignoring the emitted events). -/
def runState (s : MState) (ops : List Op) : MState :=
  ops.foldl (fun s2 op => (applyOp s2 op).1) s

/-- Steps that the environment does not initiate: coordinating-loop
iterations, worker completions, and the passage of time.  (Claims about a
task "never leaving" a state across loop ticks and completions quantify
over sequences of these.) -/
def loopStep (op : Op) : Prop :=
  op = Op.tick ∨ (∃ dt, op = Op.advance dt) ∨
    ∃ oid outcome, op = Op.finish oid outcome

/-- Structural well-formedness of a scheduler state, with an exception list
`ex` of pool slots whose task object may have left `RUNNING` already (used
mid-way through the completion path, before the finished future is reaped):
object ids are below the allocator, every queue entry points to a `QUEUED`
or `CANCELLED` object, every pool slot outside `ex` points to a `RUNNING`
object, and neither the queue's object ids nor the pool's repeat. -/
def WF (s : MState) (ex : List Nat) : Prop :=
  (∀ p ∈ s.store, p.1 < s.nextOid) ∧
  (∀ qe ∈ s.taskQueue, ∃ t, getTaskObj s qe.oid = some t ∧
    (t.status = TaskStatus.queued ∨ t.status = TaskStatus.cancelled)) ∧
  (∀ o ∈ s.executing, o ∈ ex ∨ ∃ t, getTaskObj s o = some t ∧
    t.status = TaskStatus.running) ∧
  (queueOids s).Nodup ∧
  s.executing.Nodup

/-- The priority stored at index `i` of a queue array (with an arbitrary
default for the out-of-range case). -/
def qpri (l : List QEntry) (i : Nat) : Nat := (listGetD l i ⟨0, 0⟩).priority

/-- The binary-heap invariant maintained by `heapq` for `Task.__lt__`:
every entry's priority is at most its parent's. -/
def HeapProp (l : List QEntry) : Prop :=
  ∀ i, 0 < i → i < l.length → qpri l i ≤ qpri l ((i - 1) / 2)

/-- Concrete one-task scheduler states used by several witnesses. -/
def mkTask (st : TaskStatus) (rc : Nat) : Task :=
  ⟨"a_1", "a", "a", 2, st, 1, 1, none, none, rc, 3, 60, 300, [], none, none⟩

/-- A state whose table holds exactly the task `"a_1"` (object id 0) with
the given status and retry count. -/
def oneTaskState (st : TaskStatus) (rc : Nat) : MState :=
  { initState 5 9 with store := [(0, mkTask st rc)], tasks := [("a_1", 0)] }

/-- A pending task `"b_1"` used as an uncompleted dependency. -/
def depTask : Task :=
  ⟨"b_1", "b", "b", 2, TaskStatus.pending, 1, 1, none, none, 0, 3, 60, 300,
   [], none, none⟩

/-- A failed task `"a_1"` that depends on `"b_1"`. -/
def failedWithDep : Task :=
  ⟨"a_1", "a", "a", 2, TaskStatus.failed, 1, 1, none, none, 0, 3, 60, 300,
   ["b_1"], none, none⟩

/-- A state holding `failedWithDep` (object id 0) and its still-pending
dependency `depTask` (object id 1). -/
def twoTaskState : MState :=
  { initState 5 9 with
      store := [(0, failedWithDep), (1, depTask)]
      tasks := [("a_1", 0), ("b_1", 1)] }

/-- A pending task that depends on an id absent from the table. -/
def orphanTask : Task :=
  ⟨"a_1", "a", "a", 2, TaskStatus.pending, 1, 1, none, none, 0, 3, 60, 300,
   ["ghost"], none, none⟩

/-- A state holding only `orphanTask` (object id 0). -/
def orphanState : MState :=
  { initState 5 9 with store := [(0, orphanTask)], tasks := [("a_1", 0)] }

/-! ## Lemmas -/

/-! ### Association lists -/

theorem assocFind_assocPut_self {α : Type} (l : List (String × α)) (k : String)
    (v : α) : assocFind (assocPut l k v) k = some v := by
  induction l with
  | nil => simp [assocPut, assocFind]
  | cons p rest ih =>
    by_cases h : p.1 = k
    · simp [assocPut, assocFind, h]
    · simp [assocPut, assocFind, h, ih]

theorem assocFind_assocPut_ne {α : Type} (l : List (String × α))
    (k k2 : String) (v : α) (h : k2 ≠ k) :
    assocFind (assocPut l k v) k2 = assocFind l k2 := by
  induction l with
  | nil => simp [assocPut, assocFind, Ne.symm h]
  | cons p rest ih =>
    by_cases h1 : p.1 = k
    · subst h1
      simp [assocPut, assocFind, Ne.symm h]
    · simp only [assocPut, if_neg h1]
      by_cases h2 : p.1 = k2
      · simp [assocFind, h2]
      · simp [assocFind, h2, ih]

theorem assocPut_length_of_none {α : Type} (l : List (String × α))
    (k : String) (v : α) (h : assocFind l k = none) :
    (assocPut l k v).length = l.length + 1 := by
  induction l with
  | nil => simp [assocPut]
  | cons p rest ih =>
    by_cases h1 : p.1 = k
    · simp [assocFind, h1] at h
    · simp only [assocFind, if_neg h1] at h
      simp [assocPut, h1, ih h]

theorem assocPut_length_of_some {α : Type} (l : List (String × α))
    (k : String) (v o : α) (h : assocFind l k = some o) :
    (assocPut l k v).length = l.length := by
  induction l with
  | nil => simp [assocFind] at h
  | cons p rest ih =>
    by_cases h1 : p.1 = k
    · simp [assocPut, h1]
    · simp only [assocFind, if_neg h1] at h
      simp [assocPut, h1, ih h]

theorem oidFind_oidPut_self (l : List (Nat × Task)) (k : Nat) (v : Task) :
    oidFind (oidPut l k v) k = some v := by
  induction l with
  | nil => simp [oidPut, oidFind]
  | cons p rest ih =>
    by_cases h : p.1 = k
    · simp [oidPut, oidFind, h]
    · simp [oidPut, oidFind, h, ih]

theorem oidFind_oidPut_ne (l : List (Nat × Task)) (k k2 : Nat) (v : Task)
    (h : k2 ≠ k) : oidFind (oidPut l k v) k2 = oidFind l k2 := by
  induction l with
  | nil => simp [oidPut, oidFind, Ne.symm h]
  | cons p rest ih =>
    by_cases h1 : p.1 = k
    · subst h1
      simp [oidPut, oidFind, Ne.symm h]
    · simp only [oidPut, if_neg h1]
      by_cases h2 : p.1 = k2
      · simp [oidFind, h2]
      · simp [oidFind, h2, ih]

/-! ### `listSet` / `listGetD` -/

theorem mem_listSet {α : Type} (l : List α) (i : Nat) (v x : α)
    (h : x ∈ listSet l i v) : x ∈ l ∨ x = v := by
  induction l generalizing i with
  | nil => simp [listSet] at h
  | cons y rest ih =>
    match i with
    | 0 =>
      simp only [listSet] at h
      rcases List.mem_cons.mp h with h1 | h1
      · exact Or.inr h1
      · exact Or.inl (List.mem_cons_of_mem _ h1)
    | i + 1 =>
      simp only [listSet] at h
      rcases List.mem_cons.mp h with h1 | h1
      · exact Or.inl (h1 ▸ List.mem_cons_self _ _)
      · rcases ih i h1 with h2 | h2
        · exact Or.inl (List.mem_cons_of_mem _ h2)
        · exact Or.inr h2

theorem listGetD_mem {α : Type} (l : List α) (i : Nat) (d : α) :
    listGetD l i d ∈ l ∨ listGetD l i d = d := by
  induction l generalizing i with
  | nil => simp [listGetD]
  | cons y rest ih =>
    match i with
    | 0 => exact Or.inl (List.mem_cons_self _ _)
    | i + 1 =>
      rcases ih i with h | h
      · exact Or.inl (List.mem_cons_of_mem _ h)
      · exact Or.inr (by simpa [listGetD] using h)

theorem listSet_length {α : Type} (l : List α) (i : Nat) (v : α) :
    (listSet l i v).length = l.length := by
  induction l generalizing i with
  | nil => simp [listSet]
  | cons y rest ih =>
    match i with
    | 0 => simp [listSet]
    | i + 1 => simp [listSet, ih]

/-! ### Membership lemmas for the heap operations -/

theorem listGetD_zero_mem {α : Type} (l : List α) (d : α) (h : l ≠ []) :
    listGetD l 0 d ∈ l := by
  cases l with
  | nil => exact absurd rfl h
  | cons x rest => exact List.mem_cons_self _ _

theorem mem_siftdownFuel (fuel : Nat) (l : List QEntry) (sp pos : Nat)
    (item x : QEntry) (h : x ∈ siftdownFuel fuel l sp pos item) :
    x ∈ l ∨ x = item := by
  induction fuel generalizing l pos with
  | zero => exact mem_listSet l pos item x h
  | succ fuel ih =>
    simp only [siftdownFuel] at h
    split at h
    · split at h
      · rcases ih _ _ h with hx | hx
        · rcases mem_listSet _ _ _ _ hx with hx2 | hx2
          · exact Or.inl hx2
          · rcases listGetD_mem l ((pos - 1) / 2) item with hp | hp
            · exact Or.inl (hx2 ▸ hp)
            · exact Or.inr (hx2.trans hp)
        · exact Or.inr hx
      · exact mem_listSet _ _ _ _ h
    · exact mem_listSet _ _ _ _ h

theorem mem_siftupLoop (fuel : Nat) (l : List QEntry) (pos : Nat)
    (item : QEntry) (endpos : Nat) (x : QEntry)
    (h : x ∈ (siftupLoop fuel l pos item endpos).1) : x ∈ l ∨ x = item := by
  induction fuel generalizing l pos with
  | zero => exact Or.inl h
  | succ fuel ih =>
    simp only [siftupLoop] at h
    split at h
    · rcases ih _ _ h with hx | hx
      · rcases mem_listSet _ _ _ _ hx with hx2 | hx2
        · exact Or.inl hx2
        · rcases listGetD_mem l _ item with hp | hp
          · exact Or.inl (hx2 ▸ hp)
          · exact Or.inr (hx2.trans hp)
      · exact Or.inr hx
    · exact Or.inl h

theorem mem_siftup (l : List QEntry) (x : QEntry) (hl : l ≠ [])
    (h : x ∈ siftup l 0) : x ∈ l := by
  simp only [siftup] at h
  have hget : listGetD l 0 (⟨0, 0⟩ : QEntry) ∈ l := listGetD_zero_mem l _ hl
  rcases mem_siftdownFuel _ _ _ _ _ _ h with hx | hx
  · rcases mem_listSet _ _ _ _ hx with hx2 | hx2
    · rcases mem_siftupLoop _ _ _ _ _ _ hx2 with hx3 | hx3
      · exact hx3
      · exact hx3 ▸ hget
    · exact hx2 ▸ hget
  · exact hx ▸ hget

theorem mem_heappush (l : List QEntry) (e x : QEntry) (h : x ∈ heappush l e) :
    x ∈ l ∨ x = e := by
  simp only [heappush] at h
  rcases mem_siftdownFuel _ _ _ _ _ _ h with hx | hx
  · rcases List.mem_append.mp hx with h2 | h2
    · exact Or.inl h2
    · exact Or.inr (by simpa using h2)
  · exact Or.inr hx

theorem heappop_mem (l : List QEntry) (e : QEntry) (rest : List QEntry)
    (h : heappop l = some (e, rest)) : e ∈ l ∧ ∀ x ∈ rest, x ∈ l := by
  simp only [heappop] at h
  cases hlast : l.getLast? with
  | none => rw [hlast] at h; exact absurd h (by simp)
  | some lastelt =>
    rw [hlast] at h
    have hlmem : lastelt ∈ l := List.mem_of_mem_getLast? hlast
    have hd : ∀ x ∈ l.dropLast, x ∈ l := fun x hx =>
      List.mem_of_mem_dropLast hx
    by_cases hre : l.dropLast.isEmpty
    · simp only [hre, if_true, ite_true, Option.some.injEq,
        Prod.mk.injEq] at h
      obtain ⟨he, hrest⟩ := h
      refine ⟨he ▸ hlmem, ?_⟩
      intro x hx
      rw [← hrest] at hx
      rw [List.isEmpty_iff] at hre
      rw [hre] at hx
      exact absurd hx (List.not_mem_nil x)
    · simp only [hre, if_false, ite_false, Bool.false_eq_true,
        Option.some.injEq, Prod.mk.injEq] at h
      obtain ⟨he, hrest⟩ := h
      constructor
      · rw [← he]
        rcases listGetD_mem l.dropLast 0 lastelt with h0 | h0
        · exact hd _ h0
        · rw [h0]; exact hlmem
      · intro x hx
        rw [← hrest] at hx
        have hne : listSet l.dropLast 0 lastelt ≠ [] := by
          intro hcon
          have hlen := listSet_length l.dropLast 0 lastelt
          rw [hcon] at hlen
          rw [List.isEmpty_iff] at hre
          exact hre (List.length_eq_zero.mp hlen.symm)
        rcases mem_listSet _ _ _ _ (mem_siftup _ x hne hx) with h2 | h2
        · exact hd _ h2
        · exact h2 ▸ hlmem

/-! ### Unfolding lemmas for the scheduler primitives -/

theorem getTaskObj_writeTask_self (s : MState) (oid : Nat) (t : Task) :
    getTaskObj (writeTask s oid t) oid = some t := by
  simp [getTaskObj, writeTask, oidFind_oidPut_self]

theorem getTaskObj_writeTask_ne (s : MState) (oid oid2 : Nat) (t : Task)
    (h : oid2 ≠ oid) :
    getTaskObj (writeTask s oid t) oid2 = getTaskObj s oid2 := by
  simp [getTaskObj, writeTask, oidFind_oidPut_ne _ _ _ _ h]

theorem queue_task_eq (s : MState) (oid : Nat) (t : Task)
    (h : getTaskObj s oid = some t) :
    queue_task s oid =
      ({ s with
          store := oidPut s.store oid { t with status := TaskStatus.queued }
          taskQueue := heappush s.taskQueue ⟨t.priority, oid⟩ },
       [⟨oid, t.status, TaskStatus.queued⟩]) := by
  simp [queue_task, h, writeTask]

/-- Each `_check_scheduled_tasks` loop iteration either does nothing or
queues a pending, due, dependency-satisfied task. -/
theorem scanStep_eq (acc : MState × List Event) (oid : Nat) :
    scanStep acc oid = acc ∨
    ∃ t, getTaskObj acc.1 oid = some t ∧ t.status = TaskStatus.pending ∧
      t.scheduledAt ≤ acc.1.now ∧ dependencies_met acc.1 t = true ∧
      scanStep acc oid =
        ((queue_task acc.1 oid).1, acc.2 ++ (queue_task acc.1 oid).2) := by
  unfold scanStep
  cases hobj : getTaskObj acc.1 oid with
  | none => exact Or.inl rfl
  | some t =>
    by_cases hc : t.status = TaskStatus.pending ∧ t.scheduledAt ≤ acc.1.now ∧
        dependencies_met acc.1 t
    · exact Or.inr ⟨t, rfl, hc.1, hc.2.1, hc.2.2, by simp [hc]⟩
    · simp [hc]

/-- Each `_check_dependent_tasks` loop iteration either does nothing or
queues a pending task all of whose dependencies are met. -/
theorem depStep_eq (cid : String) (acc : MState × List Event) (oid : Nat) :
    depStep cid acc oid = acc ∨
    ∃ t, getTaskObj acc.1 oid = some t ∧ t.status = TaskStatus.pending ∧
      cid ∈ t.dependencies ∧ dependencies_met acc.1 t = true ∧
      depStep cid acc oid =
        ((queue_task acc.1 oid).1, acc.2 ++ (queue_task acc.1 oid).2) := by
  unfold depStep
  cases hobj : getTaskObj acc.1 oid with
  | none => exact Or.inl rfl
  | some t =>
    by_cases hc : t.status = TaskStatus.pending ∧ cid ∈ t.dependencies ∧
        dependencies_met acc.1 t
    · exact Or.inr ⟨t, rfl, hc.1, hc.2.1, hc.2.2, by simp [hc]⟩
    · simp [hc]

/-- Fold an invariant through a scan loop. -/
theorem foldl_inv {α : Type} {P : MState × List Event → Prop}
    (step : MState × List Event → α → MState × List Event)
    (hstep : ∀ acc x, P acc → P (step acc x)) :
    ∀ (l : List α) (acc : MState × List Event), P acc → P (l.foldl step acc)
  | [], acc, h => h
  | x :: rest, acc, h => foldl_inv step hstep rest (step acc x) (hstep acc x h)

/-- `_queue_task` touches only the store and the queue. -/
theorem queue_task_frame (s : MState) (oid : Nat) :
    (queue_task s oid).1.tasks = s.tasks ∧
    (queue_task s oid).1.metrics = s.metrics ∧
    (queue_task s oid).1.now = s.now ∧
    (queue_task s oid).1.executing = s.executing ∧
    (queue_task s oid).1.runningTasks = s.runningTasks ∧
    (queue_task s oid).1.maxWorkers = s.maxWorkers ∧
    (queue_task s oid).1.nextOid = s.nextOid ∧
    (queue_task s oid).1.registry = s.registry := by
  unfold queue_task
  cases getTaskObj s oid <;> simp [writeTask]

/-- `_queue_task` emits only transitions into `QUEUED`. -/
theorem queue_task_events (s : MState) (oid : Nat) :
    ∀ e ∈ (queue_task s oid).2, e.dst = TaskStatus.queued := by
  unfold queue_task
  cases getTaskObj s oid <;> simp

/-- The readiness scan keeps every state component except the store and the
queue, and emits only transitions into `QUEUED`. -/
theorem check_scheduled_frame (s : MState) :
    (check_scheduled_tasks s).1.tasks = s.tasks ∧
    (check_scheduled_tasks s).1.metrics = s.metrics ∧
    (check_scheduled_tasks s).1.now = s.now ∧
    (check_scheduled_tasks s).1.executing = s.executing ∧
    (check_scheduled_tasks s).1.runningTasks = s.runningTasks ∧
    (check_scheduled_tasks s).1.maxWorkers = s.maxWorkers ∧
    (∀ e ∈ (check_scheduled_tasks s).2, e.dst = TaskStatus.queued) := by
  have h := foldl_inv scanStep
    (P := fun acc => acc.1.tasks = s.tasks ∧ acc.1.metrics = s.metrics ∧
      acc.1.now = s.now ∧ acc.1.executing = s.executing ∧
      acc.1.runningTasks = s.runningTasks ∧
      acc.1.maxWorkers = s.maxWorkers ∧
      ∀ e ∈ acc.2, e.dst = TaskStatus.queued)
    (fun acc oid hP => by
      rcases scanStep_eq acc oid with heq | ⟨t, _, _, _, _, heq⟩
      · rw [heq]; exact hP
      · rw [heq]
        obtain ⟨f1, f2, f3, f4, f5, f6, _, _⟩ := queue_task_frame acc.1 oid
        refine ⟨by rw [f1, hP.1], by rw [f2, hP.2.1], by rw [f3, hP.2.2.1],
          by rw [f4, hP.2.2.2.1], by rw [f5, hP.2.2.2.2.1],
          by rw [f6, hP.2.2.2.2.2.1], ?_⟩
        intro e he
        rcases List.mem_append.mp he with he | he
        · exact hP.2.2.2.2.2.2 e he
        · exact queue_task_events acc.1 oid e he)
    (s.tasks.map Prod.snd) (s, [])
    ⟨rfl, rfl, rfl, rfl, rfl, rfl, by simp⟩
  exact h

/-- The dependent-task re-evaluation has the same frame as the scan. -/
theorem check_dependent_frame (s : MState) (cid : String) :
    (check_dependent_tasks s cid).1.tasks = s.tasks ∧
    (check_dependent_tasks s cid).1.metrics = s.metrics ∧
    (check_dependent_tasks s cid).1.now = s.now ∧
    (check_dependent_tasks s cid).1.executing = s.executing ∧
    (check_dependent_tasks s cid).1.runningTasks = s.runningTasks ∧
    (check_dependent_tasks s cid).1.maxWorkers = s.maxWorkers ∧
    (∀ e ∈ (check_dependent_tasks s cid).2, e.dst = TaskStatus.queued) := by
  have h := foldl_inv (depStep cid)
    (P := fun acc => acc.1.tasks = s.tasks ∧ acc.1.metrics = s.metrics ∧
      acc.1.now = s.now ∧ acc.1.executing = s.executing ∧
      acc.1.runningTasks = s.runningTasks ∧
      acc.1.maxWorkers = s.maxWorkers ∧
      ∀ e ∈ acc.2, e.dst = TaskStatus.queued)
    (fun acc oid hP => by
      rcases depStep_eq cid acc oid with heq | ⟨t, _, _, _, _, heq⟩
      · rw [heq]; exact hP
      · rw [heq]
        obtain ⟨f1, f2, f3, f4, f5, f6, _, _⟩ := queue_task_frame acc.1 oid
        refine ⟨by rw [f1, hP.1], by rw [f2, hP.2.1], by rw [f3, hP.2.2.1],
          by rw [f4, hP.2.2.2.1], by rw [f5, hP.2.2.2.2.1],
          by rw [f6, hP.2.2.2.2.2.1], ?_⟩
        intro e he
        rcases List.mem_append.mp he with he | he
        · exact hP.2.2.2.2.2.2 e he
        · exact queue_task_events acc.1 oid e he)
    (s.tasks.map Prod.snd) (s, [])
    ⟨rfl, rfl, rfl, rfl, rfl, rfl, by simp⟩
  exact h

/-- Dispatch touches neither the table, the metrics nor the clock, and emits
only transitions into `RUNNING`. -/
theorem execute_task_frame (s : MState) (oid : Nat) :
    (execute_task s oid).1.tasks = s.tasks ∧
    (execute_task s oid).1.metrics = s.metrics ∧
    (execute_task s oid).1.now = s.now ∧
    (∀ e ∈ (execute_task s oid).2, e.dst = TaskStatus.running) := by
  unfold execute_task
  cases getTaskObj s oid <;> simp [writeTask]

/-- `retry_task` never touches the metrics, and emits only transitions into
`RETRYING` or `QUEUED`. -/
theorem retry_task_metrics_events (s : MState) (tid : String) :
    (retry_task s tid).2.1.metrics = s.metrics ∧
    ∀ e ∈ (retry_task s tid).2.2,
      e.dst = TaskStatus.retrying ∨ e.dst = TaskStatus.queued := by
  unfold retry_task
  cases h1 : assocFind s.tasks tid with
  | none => simp
  | some oid =>
    cases h2 : getTaskObj s oid with
    | none => simp [h2]
    | some t =>
      by_cases h3 : t.status = TaskStatus.failed
      · by_cases h4 : t.maxRetries ≤ t.retryCount
        · simp [h2, h3, h4]
        · simp only [h2, h3, h4, ne_eq, not_true_eq_false, not_false_eq_true,
            if_false, if_true, ite_false, ite_true]
          split
          next hdep =>
            refine ⟨((queue_task_frame _ oid).2.1).trans (by rfl), ?_⟩
            intro e he
            simp only [List.mem_cons] at he
            rcases he with he | he
            · subst he; exact Or.inl rfl
            · exact Or.inr (queue_task_events _ oid e he)
          next hdep =>
            refine ⟨by simp [writeTask], ?_⟩
            intro e he
            simp only [List.mem_cons, List.not_mem_nil, or_false] at he
            subst he; exact Or.inl rfl
      · simp [h2, h3]

/-- `cancel_task` never touches the metrics, and emits only transitions into
`CANCELLED`. -/
theorem cancel_task_metrics_events (s : MState) (tid : String) :
    (cancel_task s tid).2.1.metrics = s.metrics ∧
    ∀ e ∈ (cancel_task s tid).2.2, e.dst = TaskStatus.cancelled := by
  unfold cancel_task
  cases h1 : assocFind s.tasks tid with
  | none => simp
  | some oid =>
    cases h2 : getTaskObj s oid with
    | none => simp [h2]
    | some t =>
      by_cases h3 : t.status = TaskStatus.pending ∨ t.status = TaskStatus.queued
      · simp [h2, h3, writeTask]
      · simp [h2, h3]

/-- A task whose dependency list names an id absent from the table can
never satisfy `_dependencies_met`. -/
theorem dependencies_met_missing (s : MState) (t : Task) (d : String)
    (hd : d ∈ t.dependencies) (hnone : assocFind s.tasks d = none) :
    dependencies_met s t = false := by
  unfold dependencies_met
  rw [List.all_eq_false]
  refine ⟨d, hd, ?_⟩
  simp [get_task, hnone]

theorem queueOids_heappush (q : List QEntry) (e : QEntry) (oid : Nat)
    (h1 : oid ∉ q.map QEntry.oid) (h2 : oid ≠ e.oid) :
    oid ∉ (heappush q e).map QEntry.oid := by
  intro hmem
  rcases List.mem_map.mp hmem with ⟨x, hx, hxo⟩
  rcases mem_heappush _ _ _ hx with hxq | hxe
  · exact h1 (hxo ▸ List.mem_map_of_mem _ hxq)
  · exact h2 (by rw [← hxo, hxe])

/-- Queueing another object leaves a distinct object's record unchanged. -/
theorem queue_task_getTaskObj_ne (s : MState) (oid2 oid : Nat)
    (hne : oid ≠ oid2) :
    getTaskObj (queue_task s oid2).1 oid = getTaskObj s oid := by
  unfold queue_task
  cases hobj : getTaskObj s oid2 with
  | none => rfl
  | some t => exact getTaskObj_writeTask_ne _ _ _ _ hne

/-- Queueing another object cannot put a distinct absent object into the
queue. -/
theorem queue_task_not_queued (s : MState) (oid2 oid : Nat)
    (hne : oid ≠ oid2) (hq : oid ∉ queueOids s) :
    oid ∉ queueOids (queue_task s oid2).1 := by
  unfold queue_task
  cases hobj : getTaskObj s oid2 with
  | none => exact hq
  | some t =>
    simp only [queueOids]
    exact queueOids_heappush _ _ _ hq hne

/-- Dispatching another object does not touch a distinct object. -/
theorem execute_task_untouched (s : MState) (oid2 oid : Nat)
    (hne : oid ≠ oid2) (hex : oid ∉ s.executing) :
    getTaskObj (execute_task s oid2).1 oid = getTaskObj s oid ∧
    (execute_task s oid2).1.tasks = s.tasks ∧
    queueOids (execute_task s oid2).1 = queueOids s ∧
    oid ∉ (execute_task s oid2).1.executing := by
  unfold execute_task
  cases hobj : getTaskObj s oid2 with
  | none => exact ⟨rfl, rfl, rfl, hex⟩
  | some t =>
    refine ⟨getTaskObj_writeTask_ne _ _ _ _ hne, rfl, rfl, ?_⟩
    simp only [writeTask, List.mem_append, List.mem_singleton]
    rintro (h | h)
    · exact hex h
    · exact hne h

/-- Retrying some task does not touch an object that is not `FAILED`, and
cannot put it into the queue. -/
theorem retry_task_untouched (s : MState) (tid : String) (oid : Nat)
    (t : Task) (hobj : getTaskObj s oid = some t)
    (hst : t.status ≠ TaskStatus.failed) (hq : oid ∉ queueOids s) :
    getTaskObj (retry_task s tid).2.1 oid = some t ∧
    (retry_task s tid).2.1.tasks = s.tasks ∧
    (retry_task s tid).2.1.executing = s.executing ∧
    oid ∉ queueOids (retry_task s tid).2.1 := by
  unfold retry_task
  cases h1 : assocFind s.tasks tid with
  | none => exact ⟨hobj, rfl, rfl, hq⟩
  | some oid3 =>
    cases h2 : getTaskObj s oid3 with
    | none =>
      simp only [h2]
      refine ⟨hobj, ?_, ?_, hq⟩ <;> trivial
    | some t3 =>
      by_cases h3 : t3.status = TaskStatus.failed
      · have hne : oid ≠ oid3 := by
          intro hcon
          rw [← hcon, hobj] at h2
          cases h2
          exact hst h3
        by_cases h4 : t3.maxRetries ≤ t3.retryCount
        · simp only [h2, h3, h4, ne_eq, not_true_eq_false, if_false,
            if_true, ite_true, ite_false]
          refine ⟨hobj, ?_, ?_, hq⟩ <;> trivial
        · simp only [h2, h3, h4, ne_eq, not_true_eq_false,
            not_false_eq_true, if_false, if_true, ite_true, ite_false]
          split
          next hdep =>
            refine ⟨?_, ?_, ?_, ?_⟩
            · rw [queue_task_getTaskObj_ne _ _ _ hne]
              simp only [getTaskObj, writeTask]
              rw [oidFind_oidPut_ne _ _ _ _ hne]
              exact hobj
            · exact ((queue_task_frame _ _).1).trans (by rfl)
            · exact ((queue_task_frame _ _).2.2.2.1).trans (by rfl)
            · refine queue_task_not_queued _ _ _ hne ?_
              exact hq
          next hdep =>
            refine ⟨?_, rfl, rfl, ?_⟩
            · simp only [getTaskObj, writeTask]
              rw [oidFind_oidPut_ne _ _ _ _ hne]
              exact hobj
            · exact hq
      · simp only [h2, h3, ne_eq, not_false_eq_true, if_true, ite_true]
        refine ⟨hobj, ?_, ?_, hq⟩ <;> trivial

/-- A "stuck" object — `RETRYING`, or `PENDING` with a dependency id absent
from the table — is untouched by the readiness scan: its record is
preserved and it is not queued. -/
theorem scan_stuck (s : MState) (oid : Nat)
    (h1 : ∃ t, getTaskObj s oid = some t ∧
      (t.status = TaskStatus.retrying ∨ (t.status = TaskStatus.pending ∧
        ∃ d, d ∈ t.dependencies ∧ assocFind s.tasks d = none)))
    (h2 : oid ∉ queueOids s) :
    getTaskObj (check_scheduled_tasks s).1 oid = getTaskObj s oid ∧
    oid ∉ queueOids (check_scheduled_tasks s).1 ∧
    (check_scheduled_tasks s).1.tasks = s.tasks := by
  obtain ⟨t, hobj, hstuck⟩ := h1
  exact foldl_inv scanStep
    (P := fun acc => getTaskObj acc.1 oid = getTaskObj s oid ∧
      oid ∉ queueOids acc.1 ∧ acc.1.tasks = s.tasks)
    (fun acc oid2 hP => by
      rcases scanStep_eq acc oid2 with heq | ⟨t2, hobj2, hpend, hsched, hdep,
        heq⟩
      · rw [heq]; exact hP
      · have hne : oid ≠ oid2 := by
          intro hcon
          rw [← hcon, hP.1, hobj] at hobj2
          cases hobj2
          rcases hstuck with hr | ⟨hp, d, hd, hdnone⟩
          · rw [hr] at hpend; cases hpend
          · rw [dependencies_met_missing acc.1 _ d hd
              (by rw [hP.2.2]; exact hdnone)] at hdep
            cases hdep
        rw [heq]
        refine ⟨?_, ?_, ?_⟩
        · rw [queue_task_getTaskObj_ne _ _ _ hne]; exact hP.1
        · exact queue_task_not_queued _ _ _ hne hP.2.1
        · rw [(queue_task_frame _ _).1]; exact hP.2.2)
    (s.tasks.map Prod.snd) (s, []) ⟨rfl, h2, rfl⟩

/-- The dependent-task re-evaluation does not touch a stuck object
either. -/
theorem dep_stuck (s : MState) (cid : String) (oid : Nat)
    (h1 : ∃ t, getTaskObj s oid = some t ∧
      (t.status = TaskStatus.retrying ∨ (t.status = TaskStatus.pending ∧
        ∃ d, d ∈ t.dependencies ∧ assocFind s.tasks d = none)))
    (h2 : oid ∉ queueOids s) :
    getTaskObj (check_dependent_tasks s cid).1 oid = getTaskObj s oid ∧
    oid ∉ queueOids (check_dependent_tasks s cid).1 ∧
    (check_dependent_tasks s cid).1.tasks = s.tasks := by
  obtain ⟨t, hobj, hstuck⟩ := h1
  exact foldl_inv (depStep cid)
    (P := fun acc => getTaskObj acc.1 oid = getTaskObj s oid ∧
      oid ∉ queueOids acc.1 ∧ acc.1.tasks = s.tasks)
    (fun acc oid2 hP => by
      rcases depStep_eq cid acc oid2 with heq | ⟨t2, hobj2, hpend, hcid, hdep,
        heq⟩
      · rw [heq]; exact hP
      · have hne : oid ≠ oid2 := by
          intro hcon
          rw [← hcon, hP.1, hobj] at hobj2
          cases hobj2
          rcases hstuck with hr | ⟨hp, d, hd, hdnone⟩
          · rw [hr] at hpend; cases hpend
          · rw [dependencies_met_missing acc.1 _ d hd
              (by rw [hP.2.2]; exact hdnone)] at hdep
            cases hdep
        rw [heq]
        refine ⟨?_, ?_, ?_⟩
        · rw [queue_task_getTaskObj_ne _ _ _ hne]; exact hP.1
        · exact queue_task_not_queued _ _ _ hne hP.2.1
        · rw [(queue_task_frame _ _).1]; exact hP.2.2)
    (s.tasks.map Prod.snd) (s, []) ⟨rfl, h2, rfl⟩

/-- The success path of `_run_task` (dependent re-evaluation followed by
reaping) does not touch a stuck object. -/
theorem finish_ok_untouched (s2 : MState) (cid : String) (o2 oid : Nat)
    (t : Task) (hobj : getTaskObj s2 oid = some t)
    (hstuck : t.status = TaskStatus.retrying ∨
      (t.status = TaskStatus.pending ∧
        ∃ d, d ∈ t.dependencies ∧ assocFind s2.tasks d = none))
    (hq : oid ∉ queueOids s2) (hex : oid ∉ s2.executing) :
    getTaskObj (reap (check_dependent_tasks s2 cid).1 o2) oid = some t ∧
    oid ∉ queueOids (reap (check_dependent_tasks s2 cid).1 o2) ∧
    oid ∉ (reap (check_dependent_tasks s2 cid).1 o2).executing ∧
    (reap (check_dependent_tasks s2 cid).1 o2).tasks = s2.tasks := by
  obtain ⟨k1, k2, k3⟩ := dep_stuck s2 cid oid ⟨t, hobj, hstuck⟩ hq
  have hexd : oid ∉ (check_dependent_tasks s2 cid).1.executing := by
    rw [(check_dependent_frame s2 cid).2.2.2.1]; exact hex
  refine ⟨?_, ?_, ?_, ?_⟩
  · show getTaskObj (check_dependent_tasks s2 cid).1 oid = some t
    rw [k1]; exact hobj
  · show oid ∉ queueOids (check_dependent_tasks s2 cid).1
    exact k2
  · simp only [reap]
    intro hmem
    exact hexd (List.mem_of_mem_erase hmem)
  · show (check_dependent_tasks s2 cid).1.tasks = s2.tasks
    exact k3

/-- The failure path of `_run_task` (auto-retry followed by reaping) does
not touch an object that is not `FAILED`. -/
theorem finish_err_untouched (s2 : MState) (tid2 : String) (o2 oid : Nat)
    (t : Task) (hobj : getTaskObj s2 oid = some t)
    (hst : t.status ≠ TaskStatus.failed)
    (hq : oid ∉ queueOids s2) (hex : oid ∉ s2.executing) :
    getTaskObj (reap (retry_task s2 tid2).2.1 o2) oid = some t ∧
    oid ∉ queueOids (reap (retry_task s2 tid2).2.1 o2) ∧
    oid ∉ (reap (retry_task s2 tid2).2.1 o2).executing ∧
    (reap (retry_task s2 tid2).2.1 o2).tasks = s2.tasks := by
  obtain ⟨k1, k2, k3, k4⟩ := retry_task_untouched s2 tid2 oid t hobj hst hq
  refine ⟨k1, k4, ?_, k2⟩
  simp only [reap]
  intro hmem
  have := List.mem_of_mem_erase hmem
  rw [k3] at this
  exact hex this

/-- One loop step — a coordinating-loop tick, the clock advancing, or a
worker completing a body — does not touch a stuck object: its record, its
absence from the queue and its absence from the pool are all preserved, and
the task table keys are unchanged. -/
theorem stuck_step (s : MState) (oid : Nat) (op : Op) (hop : loopStep op)
    (h1 : ∃ t, getTaskObj s oid = some t ∧
      (t.status = TaskStatus.retrying ∨ (t.status = TaskStatus.pending ∧
        ∃ d, d ∈ t.dependencies ∧ assocFind s.tasks d = none)))
    (h2 : oid ∉ queueOids s) (h3 : oid ∉ s.executing) :
    getTaskObj (applyOp s op).1 oid = getTaskObj s oid ∧
    oid ∉ queueOids (applyOp s op).1 ∧
    oid ∉ (applyOp s op).1.executing ∧
    (applyOp s op).1.tasks = s.tasks := by
  obtain ⟨t, hto, hstuck⟩ := h1
  rcases hop with htick | ⟨dt, hadv⟩ | ⟨o2, oc, hfin⟩
  · subst htick
    simp only [applyOp, tick]
    obtain ⟨g1, g2, g3⟩ := scan_stuck s oid ⟨t, hto, hstuck⟩ h2
    have hex1 : oid ∉ (check_scheduled_tasks s).1.executing := by
      rw [(check_scheduled_frame s).2.2.2.1]; exact h3
    split
    · cases hpop : heappop (check_scheduled_tasks s).1.taskQueue with
      | none => simp only [hpop]; exact ⟨g1, g2, hex1, g3⟩
      | some pr =>
        obtain ⟨e, rest⟩ := pr
        simp only [hpop]
        obtain ⟨hein, hrest⟩ := heappop_mem _ _ _ hpop
        have hne : oid ≠ e.oid := by
          intro hcon
          exact g2 (hcon ▸ List.mem_map_of_mem QEntry.oid hein)
        have hexS : oid ∉ ({ (check_scheduled_tasks s).1 with
            taskQueue := rest } : MState).executing := hex1
        obtain ⟨e1, e2, e3, e4⟩ := execute_task_untouched
          { (check_scheduled_tasks s).1 with taskQueue := rest } e.oid oid
          hne hexS
        refine ⟨?_, ?_, e4, ?_⟩
        · rw [e1]; exact g1
        · rw [e3]
          simp only [queueOids]
          intro hmem
          rcases List.mem_map.mp hmem with ⟨x, hx, hxo⟩
          exact g2 (hxo ▸ List.mem_map_of_mem QEntry.oid (hrest x hx))
        · rw [e2]; exact g3
    · exact ⟨g1, g2, hex1, g3⟩
  · subst hadv
    exact ⟨rfl, h2, h3, rfl⟩
  · subst hfin
    simp only [applyOp, finishTask]
    split
    next hexec =>
      have hne : oid ≠ o2 := fun hcon => h3 (hcon ▸ hexec)
      cases hobj2 : getTaskObj s o2 with
      | none =>
        simp only [hobj2]
        refine ⟨?_, h2, h3, ?_⟩ <;> trivial
      | some t2 =>
        cases oc with
        | ok res =>
          simp only [hobj2]
          have hw : getTaskObj (writeTask s o2
              { t2 with
                  result := some res
                  status := TaskStatus.completed
                  completedAt := some s.now }) oid = some t := by
            rw [getTaskObj_writeTask_ne _ _ _ _ hne]; exact hto
          rw [hto]
          exact finish_ok_untouched _ t2.id o2 oid t hw hstuck h2 h3
        | error msg =>
          simp only [hobj2]
          have hw : getTaskObj (writeTask s o2
              { t2 with
                  error := some msg
                  status := TaskStatus.failed
                  completedAt := some s.now }) oid = some t := by
            rw [getTaskObj_writeTask_ne _ _ _ _ hne]; exact hto
          have hst : t.status ≠ TaskStatus.failed := by
            rcases hstuck with hr | ⟨hp, _⟩
            · rw [hr]; decide
            · rw [hp]; decide
          rw [hto]
          split
          · exact finish_err_untouched _ t2.id o2 oid t hw hst h2 h3
          · refine ⟨hw, h2, ?_, rfl⟩
            simp only [reap]
            intro hmem
            exact h3 (List.mem_of_mem_erase hmem)
    next hexec => exact ⟨rfl, h2, h3, rfl⟩

/-- Stuck objects stay stuck across any sequence of loop steps. -/
theorem stuck_run (ops : List Op) (s : MState) (oid : Nat)
    (hops : ∀ op ∈ ops, loopStep op)
    (h1 : ∃ t, getTaskObj s oid = some t ∧
      (t.status = TaskStatus.retrying ∨ (t.status = TaskStatus.pending ∧
        ∃ d, d ∈ t.dependencies ∧ assocFind s.tasks d = none)))
    (h2 : oid ∉ queueOids s) (h3 : oid ∉ s.executing) :
    getTaskObj (runState s ops) oid = getTaskObj s oid ∧
    oid ∉ queueOids (runState s ops) ∧
    oid ∉ (runState s ops).executing := by
  induction ops generalizing s with
  | nil => exact ⟨rfl, h2, h3⟩
  | cons op rest ih =>
    obtain ⟨t, hto, hstuck⟩ := h1
    obtain ⟨k1, k2, k3, k4⟩ := stuck_step s oid op
      (hops op (List.mem_cons_self _ _)) ⟨t, hto, hstuck⟩ h2 h3
    have h1b : ∃ t2, getTaskObj (applyOp s op).1 oid = some t2 ∧
        (t2.status = TaskStatus.retrying ∨
          (t2.status = TaskStatus.pending ∧
            ∃ d, d ∈ t2.dependencies ∧
              assocFind (applyOp s op).1.tasks d = none)) := by
      refine ⟨t, by rw [k1]; exact hto, ?_⟩
      rcases hstuck with hr | ⟨hp, d, hd, hdn⟩
      · exact Or.inl hr
      · exact Or.inr ⟨hp, d, hd, by rw [k4]; exact hdn⟩
    obtain ⟨m1, m2, m3⟩ := ih (applyOp s op).1
      (fun op2 h => hops op2 (List.mem_cons_of_mem _ h)) h1b k2 k3
    exact ⟨by rw [show runState s (op :: rest) =
      runState (applyOp s op).1 rest from rfl, m1, k1], m2, m3⟩

/-- `_dependencies_met` only inspects the dependency ids and the dependency
statuses: it is unchanged between two states with the same table keys in
which the same objects are `COMPLETED`. -/
theorem dependencies_met_congr (s s2 : MState) (t : Task)
    (htasks : s2.tasks = s.tasks)
    (hcomp : ∀ o, (getTaskObj s2 o).map Task.status =
        some TaskStatus.completed ↔
      (getTaskObj s o).map Task.status = some TaskStatus.completed) :
    dependencies_met s2 t = dependencies_met s t := by
  unfold dependencies_met
  refine congrArg _ (funext fun d => ?_)
  unfold get_task
  rw [htasks]
  cases ha : assocFind s.tasks d with
  | none => rfl
  | some o =>
    have hc := hcomp o
    simp only [Option.some_bind]
    cases h2 : getTaskObj s2 o with
    | none =>
      cases h3 : getTaskObj s o with
      | none => rfl
      | some u =>
        rw [h2, h3] at hc
        simp only [Option.map_none', Option.map_some'] at hc
        have hne : ¬ u.status = TaskStatus.completed := fun hcc => by
          have hx := hc.mpr (by rw [hcc])
          cases hx
        simp [hne]
    | some u =>
      cases h3 : getTaskObj s o with
      | none =>
        rw [h2, h3] at hc
        simp only [Option.map_none', Option.map_some'] at hc
        have hne : ¬ u.status = TaskStatus.completed := fun hcc => by
          have hx := hc.mp (by rw [hcc])
          cases hx
        simp [hne]
      | some v =>
        rw [h2, h3] at hc
        simp only [Option.map_some', Option.some.injEq] at hc
        simp only [decide_eq_decide]
        exact hc

/-- `_dependencies_met` ignores the status field of its argument. -/
theorem dependencies_met_status_irrel (s : MState) (t : Task)
    (st : TaskStatus) :
    dependencies_met s { t with status := st } = dependencies_met s t := rfl

/-- The readiness scan only turns `PENDING` objects into `QUEUED` ones, and
every `→ QUEUED` event it emits names a task that was pending, due, and
dependency-satisfied in the pre-scan state. -/
theorem scan_evol_sound (s : MState) :
    (∀ o, getTaskObj (check_scheduled_tasks s).1 o = getTaskObj s o ∨
      ∃ t, getTaskObj s o = some t ∧ t.status = TaskStatus.pending ∧
        getTaskObj (check_scheduled_tasks s).1 o =
          some { t with status := TaskStatus.queued }) ∧
    (∀ e ∈ (check_scheduled_tasks s).2,
      ∃ t, getTaskObj s e.oid = some t ∧ t.status = TaskStatus.pending ∧
        t.scheduledAt ≤ s.now ∧ dependencies_met s t = true) := by
  have h := foldl_inv scanStep
    (P := fun acc => acc.1.tasks = s.tasks ∧ acc.1.now = s.now ∧
      (∀ o, getTaskObj acc.1 o = getTaskObj s o ∨
        ∃ t, getTaskObj s o = some t ∧ t.status = TaskStatus.pending ∧
          getTaskObj acc.1 o = some { t with status := TaskStatus.queued }) ∧
      (∀ e ∈ acc.2,
        ∃ t, getTaskObj s e.oid = some t ∧ t.status = TaskStatus.pending ∧
          t.scheduledAt ≤ s.now ∧ dependencies_met s t = true))
    (fun acc oid2 hP => by
      obtain ⟨htasks, hnow, hevol, hsound⟩ := hP
      rcases scanStep_eq acc oid2 with heq | ⟨t2, hobj2, hpend, hsched, hdep,
        heq⟩
      · rw [heq]; exact ⟨htasks, hnow, hevol, hsound⟩
      · have hcomp : ∀ o, (getTaskObj acc.1 o).map Task.status =
            some TaskStatus.completed ↔
            (getTaskObj s o).map Task.status = some TaskStatus.completed := by
          intro o
          rcases hevol o with he | ⟨t3, hb, hp3, ha3⟩
          · rw [he]
          · rw [hb, ha3]
            simp only [Option.map_some', Option.some.injEq]
            rw [hp3]
            constructor <;> intro hcon <;> cases hcon
        have hbase : getTaskObj s oid2 = some t2 := by
          rcases hevol oid2 with he | ⟨t3, hb, hp3, ha3⟩
          · rw [← he]; exact hobj2
          · rw [hobj2] at ha3
            cases ha3
            simp at hpend
        have hdmet : dependencies_met s t2 = true := by
          rw [← dependencies_met_congr s acc.1 t2 htasks hcomp]
          exact hdep
        rw [heq]
        rw [queue_task_eq acc.1 oid2 t2 hobj2]
        refine ⟨htasks, hnow, ?_, ?_⟩
        · intro o
          by_cases ho : o = oid2
          · subst ho
            refine Or.inr ⟨t2, hbase, hpend, ?_⟩
            simp [getTaskObj, oidFind_oidPut_self]
          · have : getTaskObj ({ acc.1 with
                store := oidPut acc.1.store oid2
                  { t2 with status := TaskStatus.queued }
                taskQueue := heappush acc.1.taskQueue
                  ⟨t2.priority, oid2⟩ } : MState) o = getTaskObj acc.1 o := by
              simp only [getTaskObj]
              exact oidFind_oidPut_ne _ _ _ _ ho
            rw [this]
            exact hevol o
        · intro e he
          rcases List.mem_append.mp he with he | he
          · exact hsound e he
          · rw [List.mem_singleton] at he
            subst he
            exact ⟨t2, hbase, hpend, by rw [← hnow]; exact hsched, hdmet⟩)
    (s.tasks.map Prod.snd) (s, []) ⟨rfl, rfl, fun o => Or.inl rfl, by simp⟩
  exact ⟨h.2.2.1, fun e he => h.2.2.2 e he⟩

/-- Analogue of `scan_evol_sound` for the dependent-task re-evaluation. -/
theorem dep_evol_sound (s : MState) (cid : String) :
    (∀ o, getTaskObj (check_dependent_tasks s cid).1 o = getTaskObj s o ∨
      ∃ t, getTaskObj s o = some t ∧ t.status = TaskStatus.pending ∧
        getTaskObj (check_dependent_tasks s cid).1 o =
          some { t with status := TaskStatus.queued }) ∧
    (∀ e ∈ (check_dependent_tasks s cid).2,
      ∃ t, getTaskObj s e.oid = some t ∧ t.status = TaskStatus.pending ∧
        dependencies_met s t = true) := by
  have h := foldl_inv (depStep cid)
    (P := fun acc => acc.1.tasks = s.tasks ∧
      (∀ o, getTaskObj acc.1 o = getTaskObj s o ∨
        ∃ t, getTaskObj s o = some t ∧ t.status = TaskStatus.pending ∧
          getTaskObj acc.1 o = some { t with status := TaskStatus.queued }) ∧
      (∀ e ∈ acc.2,
        ∃ t, getTaskObj s e.oid = some t ∧ t.status = TaskStatus.pending ∧
          dependencies_met s t = true))
    (fun acc oid2 hP => by
      obtain ⟨htasks, hevol, hsound⟩ := hP
      rcases depStep_eq cid acc oid2 with heq | ⟨t2, hobj2, hpend, hcid, hdep,
        heq⟩
      · rw [heq]; exact ⟨htasks, hevol, hsound⟩
      · have hcomp : ∀ o, (getTaskObj acc.1 o).map Task.status =
            some TaskStatus.completed ↔
            (getTaskObj s o).map Task.status = some TaskStatus.completed := by
          intro o
          rcases hevol o with he | ⟨t3, hb, hp3, ha3⟩
          · rw [he]
          · rw [hb, ha3]
            simp only [Option.map_some', Option.some.injEq]
            rw [hp3]
            constructor <;> intro hcon <;> cases hcon
        have hbase : getTaskObj s oid2 = some t2 := by
          rcases hevol oid2 with he | ⟨t3, hb, hp3, ha3⟩
          · rw [← he]; exact hobj2
          · rw [hobj2] at ha3
            cases ha3
            simp at hpend
        have hdmet : dependencies_met s t2 = true := by
          rw [← dependencies_met_congr s acc.1 t2 htasks hcomp]
          exact hdep
        rw [heq]
        rw [queue_task_eq acc.1 oid2 t2 hobj2]
        refine ⟨htasks, ?_, ?_⟩
        · intro o
          by_cases ho : o = oid2
          · subst ho
            refine Or.inr ⟨t2, hbase, hpend, ?_⟩
            simp [getTaskObj, oidFind_oidPut_self]
          · have : getTaskObj ({ acc.1 with
                store := oidPut acc.1.store oid2
                  { t2 with status := TaskStatus.queued }
                taskQueue := heappush acc.1.taskQueue
                  ⟨t2.priority, oid2⟩ } : MState) o = getTaskObj acc.1 o := by
              simp only [getTaskObj]
              exact oidFind_oidPut_ne _ _ _ _ ho
            rw [this]
            exact hevol o
        · intro e he
          rcases List.mem_append.mp he with he | he
          · exact hsound e he
          · rw [List.mem_singleton] at he
            subst he
            exact ⟨t2, hbase, hpend, hdmet⟩)
    (s.tasks.map Prod.snd) (s, []) ⟨rfl, fun o => Or.inl rfl, by simp⟩
  exact ⟨h.2.1, fun e he => h.2.2 e he⟩

/-- Queueing a non-`COMPLETED` task with met dependencies leaves it with
met dependencies in the queued state. -/
theorem queue_task_post_sound (s : MState) (oid : Nat) (t : Task)
    (hobj : getTaskObj s oid = some t)
    (hnc : t.status ≠ TaskStatus.completed)
    (hdep : dependencies_met s t = true) :
    ∃ t2, getTaskObj (queue_task s oid).1 oid = some t2 ∧
      dependencies_met (queue_task s oid).1 t2 = true := by
  rw [queue_task_eq s oid t hobj]
  refine ⟨{ t with status := TaskStatus.queued }, by
    simp [getTaskObj, oidFind_oidPut_self], ?_⟩
  rw [dependencies_met_status_irrel]
  have hcomp : ∀ o, (getTaskObj ({ s with
      store := oidPut s.store oid { t with status := TaskStatus.queued }
      taskQueue := heappush s.taskQueue ⟨t.priority, oid⟩ } : MState)
        o).map Task.status = some TaskStatus.completed ↔
      (getTaskObj s o).map Task.status = some TaskStatus.completed := by
    intro o
    by_cases ho : o = oid
    · subst ho
      have h1 : getTaskObj ({ s with
          store := oidPut s.store o { t with status := TaskStatus.queued }
          taskQueue := heappush s.taskQueue ⟨t.priority, o⟩ } : MState) o =
          some { t with status := TaskStatus.queued } := by
        simp [getTaskObj, oidFind_oidPut_self]
      rw [h1, hobj]
      simp only [Option.map_some', Option.some.injEq]
      constructor
      · intro hcon; cases hcon
      · intro hcon; exact absurd hcon hnc
    · have h1 : getTaskObj ({ s with
          store := oidPut s.store oid { t with status := TaskStatus.queued }
          taskQueue := heappush s.taskQueue ⟨t.priority, oid⟩ } : MState) o =
          getTaskObj s o := by
        simp only [getTaskObj]
        exact oidFind_oidPut_ne _ _ _ _ ho
      rw [h1]
  have hcongr := dependencies_met_congr s
    { s with
        store := oidPut s.store oid { t with status := TaskStatus.queued }
        taskQueue := heappush s.taskQueue ⟨t.priority, oid⟩ } t rfl hcomp
  rw [hcongr]
  exact hdep

/-- Every `→ QUEUED` event emitted by `retry_task` names a task whose
dependencies are met in the post-state. -/
theorem retry_task_queued_sound (s : MState) (tid : String) :
    ∀ e ∈ (retry_task s tid).2.2, e.dst = TaskStatus.queued →
      ∃ t2, getTaskObj (retry_task s tid).2.1 e.oid = some t2 ∧
        dependencies_met (retry_task s tid).2.1 t2 = true := by
  unfold retry_task
  cases h1 : assocFind s.tasks tid with
  | none => intro e he _; cases he
  | some oid3 =>
    cases h2 : getTaskObj s oid3 with
    | none => simp only [h2]; intro e he _; cases he
    | some t3 =>
      by_cases h3 : t3.status = TaskStatus.failed
      · by_cases h4 : t3.maxRetries ≤ t3.retryCount
        · simp only [h2, h3, h4, ne_eq, not_true_eq_false, if_false,
            if_true, ite_true, ite_false]
          intro e he _; cases he
        · simp only [h2, h3, h4, ne_eq, not_true_eq_false,
            not_false_eq_true, if_false, if_true, ite_true, ite_false]
          split
          next hdep =>
            intro e he hq
            rcases List.mem_cons.mp he with he1 | he2
            · subst he1; cases hq
            · have hw := getTaskObj_writeTask_self s oid3
                { t3 with
                    status := TaskStatus.retrying
                    retryCount := t3.retryCount + 1
                    error := none
                    scheduledAt :=
                      s.now + t3.retryDelay * 2 ^ (t3.retryCount + 1 - 1) }
              have hev := queue_task_eq _ oid3 _ hw
              rw [hev] at he2
              rw [List.mem_singleton] at he2
              subst he2
              exact queue_task_post_sound _ oid3 _ hw (by simp) hdep
          next hdep =>
            intro e he hq
            rw [List.mem_singleton] at he
            subst he; cases hq
      · simp only [h2, h3, ne_eq, not_false_eq_true, if_true, ite_true]
        intro e he _; cases he

/-- A state evolved from `s` only by `PENDING → QUEUED` status writes has
the same `COMPLETED` objects as `s`. -/
theorem evol_comp_iff (s s3 : MState)
    (hevol : ∀ o, getTaskObj s3 o = getTaskObj s o ∨
      ∃ t, getTaskObj s o = some t ∧ t.status = TaskStatus.pending ∧
        getTaskObj s3 o = some { t with status := TaskStatus.queued }) :
    ∀ o, (getTaskObj s3 o).map Task.status = some TaskStatus.completed ↔
      (getTaskObj s o).map Task.status = some TaskStatus.completed := by
  intro o
  rcases hevol o with he | ⟨t, hb, hp, ha⟩
  · rw [he]
  · rw [hb, ha]
    simp only [Option.map_some', Option.some.injEq]
    rw [hp]
    constructor <;> intro hcon <;> cases hcon

/-- Every `→ QUEUED` event of a dependent-task re-evaluation names a task
whose dependencies are met in the final (reaped) state. -/
theorem depcheck_reap_sound (s2 : MState) (cid : String) (o2 : Nat) :
    ∀ e ∈ (check_dependent_tasks s2 cid).2,
      ∃ t2, getTaskObj (reap (check_dependent_tasks s2 cid).1 o2) e.oid =
          some t2 ∧
        dependencies_met (reap (check_dependent_tasks s2 cid).1 o2) t2 =
          true := by
  intro e he
  obtain ⟨hevol, hsound⟩ := dep_evol_sound s2 cid
  obtain ⟨tb, hb, hpend, hdep⟩ := hsound e he
  have htasks : (check_dependent_tasks s2 cid).1.tasks = s2.tasks :=
    (check_dependent_frame s2 cid).1
  have hcomp := evol_comp_iff s2 (check_dependent_tasks s2 cid).1 hevol
  have hreapmet : ∀ u, dependencies_met
      (reap (check_dependent_tasks s2 cid).1 o2) u =
      dependencies_met (check_dependent_tasks s2 cid).1 u := fun u => rfl
  have hreapobj : ∀ o, getTaskObj
      (reap (check_dependent_tasks s2 cid).1 o2) o =
      getTaskObj (check_dependent_tasks s2 cid).1 o := fun o => rfl
  rcases hevol e.oid with he1 | ⟨tq, hbq, hpq, haq⟩
  · refine ⟨tb, by rw [hreapobj, he1]; exact hb, ?_⟩
    rw [hreapmet, dependencies_met_congr s2 _ tb htasks hcomp]
    exact hdep
  · rw [hb] at hbq
    cases hbq
    refine ⟨{ tb with status := TaskStatus.queued },
      by rw [hreapobj]; exact haq, ?_⟩
    rw [hreapmet, dependencies_met_status_irrel,
      dependencies_met_congr s2 _ tb htasks hcomp]
    exact hdep

/-- Every `→ QUEUED` event of an auto-retry names a task whose dependencies
are met in the final (reaped) state. -/
theorem retry_reap_sound (s2 : MState) (tid2 : String) (o2 : Nat) :
    ∀ e ∈ (retry_task s2 tid2).2.2, e.dst = TaskStatus.queued →
      ∃ t2, getTaskObj (reap (retry_task s2 tid2).2.1 o2) e.oid = some t2 ∧
        dependencies_met (reap (retry_task s2 tid2).2.1 o2) t2 = true := by
  intro e he hq
  obtain ⟨t2, h1, h2⟩ := retry_task_queued_sound s2 tid2 e he hq
  exact ⟨t2, h1, h2⟩

/-- Every `→ QUEUED` event emitted by `_run_task` names a task whose
dependencies are met in the post-state. -/
theorem finishTask_queued_sound (s : MState) (oid2 : Nat)
    (oc : Except String String) :
    ∀ e ∈ (finishTask s oid2 oc).2, e.dst = TaskStatus.queued →
      ∃ t2, getTaskObj (finishTask s oid2 oc).1 e.oid = some t2 ∧
        dependencies_met (finishTask s oid2 oc).1 t2 = true := by
  unfold finishTask
  split
  · cases hobj : getTaskObj s oid2 with
    | none =>
      simp only [hobj]
      intro e he _
      cases he
    | some t =>
      cases oc with
      | ok res =>
        simp only [hobj]
        intro e he hq
        rcases List.mem_cons.mp he with he1 | he2
        · subst he1; cases hq
        · exact depcheck_reap_sound _ t.id oid2 e he2
      | error msg =>
        simp only [hobj]
        split
        · intro e he hq
          rcases List.mem_cons.mp he with he1 | he2
          · subst he1; cases hq
          · exact retry_reap_sound _ t.id oid2 e he2 hq
        · intro e he hq
          rcases List.mem_cons.mp he with he1 | he2
          · subst he1; cases hq
          · cases he2
  · intro e he _
    cases he

/-- No `→ FAILED` event is ever emitted by the promotion and dispatch
helpers or by `retry_task`. -/
theorem no_failure_events_aux :
    (∀ (l : List Event), (∀ e ∈ l, e.dst ≠ TaskStatus.failed) →
      l.filter isFailureEvent = []) ∧
    (∀ (s : MState), (check_scheduled_tasks s).2.filter isFailureEvent = []) ∧
    (∀ (s : MState) (cid : String),
      (check_dependent_tasks s cid).2.filter isFailureEvent = []) ∧
    (∀ (s : MState) (oid : Nat),
      (execute_task s oid).2.filter isFailureEvent = []) ∧
    (∀ (s : MState) (oid : Nat),
      (queue_task s oid).2.filter isFailureEvent = []) ∧
    (∀ (s : MState) (tid : String),
      (retry_task s tid).2.2.filter isFailureEvent = []) := by
  have hfilter : ∀ (l : List Event),
      (∀ e ∈ l, e.dst ≠ TaskStatus.failed) →
      l.filter isFailureEvent = [] := by
    intro l hl
    rw [List.filter_eq_nil_iff]
    intro e he
    simp [isFailureEvent, hl e he]
  refine ⟨hfilter, ?_, ?_, ?_, ?_, ?_⟩
  · intro s
    exact hfilter _ (fun e he => by
      rw [(check_scheduled_frame s).2.2.2.2.2.2 e he]; decide)
  · intro s cid
    exact hfilter _ (fun e he => by
      rw [(check_dependent_frame s cid).2.2.2.2.2.2 e he]; decide)
  · intro s oid
    exact hfilter _ (fun e he => by
      rw [(execute_task_frame s oid).2.2.2 e he]; decide)
  · intro s oid
    exact hfilter _ (fun e he => by
      rw [queue_task_events s oid e he]; decide)
  · intro s tid
    exact hfilter _ (fun e he => by
      rcases (retry_task_metrics_events s tid).2 e he with h | h <;>
        rw [h] <;> decide)

/-! ## Claims -/

/-- C2: the claim states that a task only ever becomes `QUEUED` once its
`scheduled_at` has elapsed, so a task created with a future `scheduled_at`
(or re-scheduled with a backoff delay) stays out of the queue until then.
The code contradicts this — and its own scheduling comments/docstring:
`create_task` queues any dependency-free task immediately, ignoring
`scheduled_at`, and `retry_task` computes the exponential-backoff
`scheduled_at` only to queue the task immediately afterwards.  This theorem
evaluates the code at the two failing inputs: (a) a task created at clock
1000 with `scheduled_at = 5000` is `QUEUED` at clock 1000; (b) a task whose
first run fails is re-queued at clock 1000 although its backoff set
`scheduled_at = 1060`. -/
theorem C2_schedule_ignored_on_create_and_retry :
    (let r := applyOp (initState 5 1000)
      (Op.create "nightly" "health_check" false TaskPriority.NORMAL
        (some 5000) 3 300 [])
     (get_task r.1 "health_check_1000").map Task.status =
        some TaskStatus.queued ∧
     (get_task r.1 "health_check_1000").map Task.scheduledAt = some 5000 ∧
     r.1.now = 1000) ∧
    (let r := runOps (initState 5 1000)
      [Op.create "job" "health_check" false TaskPriority.NORMAL none 3 300 [],
       Op.tick, Op.finish 0 (Except.error "boom")]
     (get_task r.1 "health_check_1000").map Task.status =
        some TaskStatus.queued ∧
     (get_task r.1 "health_check_1000").map Task.scheduledAt = some 1060 ∧
     r.1.now = 1000) := by
  decide

/-- C9: `create_task` with an unregistered `task_type` and no explicit
function raises `ValueError` synchronously, before any mutation: no task is
added, nothing is queued, and the metrics are untouched (the returned state
is exactly the input state). -/
theorem C9_unknown_type_rejected_atomically (s : MState)
    (name taskType : String) (priority : Nat) (scheduledAt : Option Nat)
    (maxRetries timeout : Nat) (deps : List String)
    (h : taskType ∉ s.registry) :
    create_task s name taskType false priority scheduledAt maxRetries timeout
        deps = Except.error ("Unknown task type: " ++ taskType) ∧
    applyOp s
        (Op.create name taskType false priority scheduledAt maxRetries timeout
          deps) = (s, []) := by
  refine ⟨by simp [create_task, h], ?_⟩
  simp [applyOp, create_task, h]

/-- Witness for `C9_unknown_type_rejected_atomically` at a concrete state
and an unregistered type. -/
theorem C9_witness :
    create_task (initState 5 0) "x" "nope" false 1 none 3 300 [] =
      Except.error ("Unknown task type: " ++ "nope") ∧
    applyOp (initState 5 0) (Op.create "x" "nope" false 1 none 3 300 []) =
      (initState 5 0, []) :=
  C9_unknown_type_rejected_atomically (initState 5 0) "x" "nope" 1 none 3 300
    [] (by decide)

/-- C8: `cancel_task` and `retry_task` are total and side-effect free on
inapplicable targets: on a nonexistent id both return `False` and change
nothing; `cancel_task` on a `COMPLETED` task returns `False` and changes
nothing; `cancel_task` on a `PENDING` task returns `True` exactly once
(marking it `CANCELLED`), and a repeated call returns `False` leaving the
state unchanged; `retry_task` returns `False` and changes nothing when the
task is not `FAILED`, and also when it is `FAILED` with no retries left. -/
theorem C8_cancel_retry_booleans :
    (∀ (s : MState) (tid : String), assocFind s.tasks tid = none →
      cancel_task s tid = (false, s, []) ∧ retry_task s tid = (false, s, [])) ∧
    (∀ (s : MState) (tid : String) (oid : Nat) (t : Task),
      assocFind s.tasks tid = some oid → getTaskObj s oid = some t →
      t.status = TaskStatus.completed → cancel_task s tid = (false, s, [])) ∧
    (∀ (s : MState) (tid : String) (oid : Nat) (t : Task),
      assocFind s.tasks tid = some oid → getTaskObj s oid = some t →
      t.status = TaskStatus.pending →
      (cancel_task s tid).1 = true ∧
      (getTaskObj (cancel_task s tid).2.1 oid).map Task.status =
        some TaskStatus.cancelled ∧
      cancel_task (cancel_task s tid).2.1 tid =
        (false, (cancel_task s tid).2.1, [])) ∧
    (∀ (s : MState) (tid : String) (oid : Nat) (t : Task),
      assocFind s.tasks tid = some oid → getTaskObj s oid = some t →
      t.status ≠ TaskStatus.failed → retry_task s tid = (false, s, [])) ∧
    (∀ (s : MState) (tid : String) (oid : Nat) (t : Task),
      assocFind s.tasks tid = some oid → getTaskObj s oid = some t →
      t.status = TaskStatus.failed → t.maxRetries ≤ t.retryCount →
      retry_task s tid = (false, s, [])) := by
  refine ⟨?_, ?_, ?_, ?_, ?_⟩
  · intro s tid h
    exact ⟨by simp [cancel_task, h], by simp [retry_task, h]⟩
  · intro s tid oid t h1 h2 h3
    simp [cancel_task, h1, h2, h3]
  · intro s tid oid t h1 h2 h3
    have hcancel : cancel_task s tid =
        (true, writeTask s oid { t with status := TaskStatus.cancelled },
         [⟨oid, t.status, TaskStatus.cancelled⟩]) := by
      simp [cancel_task, h1, h2, h3]
    have h1b : assocFind (writeTask s oid
        { t with status := TaskStatus.cancelled }).tasks tid = some oid := h1
    have h2b := getTaskObj_writeTask_self s oid
      { t with status := TaskStatus.cancelled }
    refine ⟨by simp [hcancel], by simp [hcancel, getTaskObj_writeTask_self],
      ?_⟩
    rw [hcancel]
    simp [cancel_task, h1b, h2b]
  · intro s tid oid t h1 h2 h3
    simp [retry_task, h1, h2, h3]
  · intro s tid oid t h1 h2 h3 h4
    simp [retry_task, h1, h2, h3, h4]

/-- Witness for `C8_cancel_retry_booleans`: exercises the conjuncts at
concrete states — a nonexistent id, a double cancel of a `PENDING` task, a
cancel of a `COMPLETED` task, and a retry of a `FAILED` task with exhausted
retries. -/
theorem C8_witness :
    cancel_task (initState 5 0) "ghost" = (false, initState 5 0, []) ∧
    (cancel_task (oneTaskState TaskStatus.pending 0) "a_1").1 = true ∧
    cancel_task (cancel_task (oneTaskState TaskStatus.pending 0) "a_1").2.1
        "a_1" =
      (false, (cancel_task (oneTaskState TaskStatus.pending 0) "a_1").2.1,
        []) ∧
    cancel_task (oneTaskState TaskStatus.completed 0) "a_1" =
      (false, oneTaskState TaskStatus.completed 0, []) ∧
    retry_task (oneTaskState TaskStatus.failed 3) "a_1" =
      (false, oneTaskState TaskStatus.failed 3, []) :=
  ⟨(C8_cancel_retry_booleans.1 (initState 5 0) "ghost" (by decide)).1,
   (C8_cancel_retry_booleans.2.2.1 (oneTaskState TaskStatus.pending 0) "a_1" 0
      (mkTask TaskStatus.pending 0) (by decide) (by decide) (by decide)).1,
   (C8_cancel_retry_booleans.2.2.1 (oneTaskState TaskStatus.pending 0) "a_1" 0
      (mkTask TaskStatus.pending 0) (by decide) (by decide) (by decide)).2.2,
   C8_cancel_retry_booleans.2.1 (oneTaskState TaskStatus.completed 0) "a_1" 0
      (mkTask TaskStatus.completed 0) (by decide) (by decide) (by decide),
   C8_cancel_retry_booleans.2.2.2.2 (oneTaskState TaskStatus.failed 3) "a_1" 0
      (mkTask TaskStatus.failed 3) (by decide) (by decide) (by decide)
      (by decide)⟩

/-- C7 (amended): `create_task` computes the returned task id as
`task_type ++ "_" ++ clock`; it maps that id to the freshly allocated task
object; when the id is not yet a key of the table the task is added as a new
entry (table grows by one), but when the id is already a key — which happens
exactly when the same task type is submitted twice at the same clock
millisecond — the existing entry is overwritten in place (table size
unchanged) rather than a distinct id being generated.  Either way all other
keys are untouched. -/
theorem C7_task_id_generation (s : MState) (name taskType : String)
    (hasFunction : Bool) (priority : Nat) (scheduledAt : Option Nat)
    (maxRetries timeout : Nat) (deps : List String) (tid : String)
    (s2 : MState) (evs : List Event)
    (h : create_task s name taskType hasFunction priority scheduledAt
      maxRetries timeout deps = Except.ok (tid, s2, evs)) :
    tid = taskType ++ "_" ++ toString s.now ∧
    assocFind s2.tasks tid = some s.nextOid ∧
    (assocFind s.tasks tid = none → s2.tasks.length = s.tasks.length + 1) ∧
    (∀ o, assocFind s.tasks tid = some o →
      s2.tasks.length = s.tasks.length) ∧
    (∀ k, k ≠ tid → assocFind s2.tasks k = assocFind s.tasks k) := by
  simp only [create_task] at h
  split at h
  · exact absurd h (by simp)
  · split at h
    all_goals
      simp only [Except.ok.injEq, Prod.mk.injEq] at h
      obtain ⟨h1, h2, h3⟩ := h
      subst h1
    · have htasks : s2.tasks = assocPut s.tasks (taskType ++ "_" ++
          toString s.now) s.nextOid := by
        rw [← h2]
        exact (queue_task_frame _ _).1
      refine ⟨rfl, ?_, ?_, ?_, ?_⟩
      · rw [htasks]; exact assocFind_assocPut_self _ _ _
      · intro hnone
        rw [htasks]
        exact assocPut_length_of_none _ _ _ hnone
      · intro o hsome
        rw [htasks]
        exact assocPut_length_of_some _ _ _ _ hsome
      · intro k hk
        rw [htasks]
        exact assocFind_assocPut_ne _ _ _ _ hk
    · have htasks : s2.tasks = assocPut s.tasks (taskType ++ "_" ++
          toString s.now) s.nextOid := by rw [← h2]
      refine ⟨rfl, ?_, ?_, ?_, ?_⟩
      · rw [htasks]; exact assocFind_assocPut_self _ _ _
      · intro hnone
        rw [htasks]
        exact assocPut_length_of_none _ _ _ hnone
      · intro o hsome
        rw [htasks]
        exact assocPut_length_of_some _ _ _ _ hsome
      · intro k hk
        rw [htasks]
        exact assocFind_assocPut_ne _ _ _ _ hk

/-- Witness for `C7_task_id_generation` at a concrete creation. -/
theorem C7_witness :
    "health_check_1000" = "health_check" ++ "_" ++ toString
      (initState 5 1000).now ∧
    assocFind (runOps (initState 5 1000)
        [Op.create "a" "health_check" false 2 none 3 300 []]).1.tasks
      "health_check_1000" = some (initState 5 1000).nextOid := by
  have h := C7_task_id_generation (initState 5 1000) "a" "health_check" false
    2 none 3 300 [] "health_check_1000"
    (runOps (initState 5 1000)
      [Op.create "a" "health_check" false 2 none 3 300 []]).1
    [⟨0, TaskStatus.pending, TaskStatus.queued⟩] (by rfl)
  exact ⟨h.1, h.2.1⟩

/-- Counterexample to C7 as stated: two `create_task` calls for the same
task type at the same clock value return the *same* id
(`"health_check_1000"` twice), and the second call overwrites the first
task — after both calls the table holds a single entry although the
created-tasks counter is 2. -/
theorem C7_counterexample :
    (create_task (initState 5 1000) "a" "health_check" false 2 none 3 300
        []).toOption.map (fun r => r.1) = some "health_check_1000" ∧
    (create_task (runOps (initState 5 1000)
          [Op.create "a" "health_check" false 2 none 3 300 []]).1 "b"
        "health_check" false 2 none 3 300 []).toOption.map (fun r => r.1) =
      some "health_check_1000" ∧
    (runOps (initState 5 1000)
        [Op.create "a" "health_check" false 2 none 3 300 [],
         Op.create "b" "health_check" false 2 none 3 300 []]).1.tasks.length
      = 1 ∧
    (runOps (initState 5 1000)
        [Op.create "a" "health_check" false 2 none 3 300 [],
         Op.create "b" "health_check" false 2 none 3 300
           []]).1.metrics.totalTasksCreated = 2 := by
  decide

/-- C3: both retry paths — a manual `retry_task` on a `FAILED` task with
retries remaining, and the automatic retry performed by `_run_task` when a
body fails with `retry_count < max_retries` — increment `retry_count` by
exactly one, clear the `error` field, and set
`scheduled_at = now + retry_delay * 2 ^ (new retry_count - 1)`. -/
theorem C3_retry_backoff :
    (∀ (s : MState) (tid : String) (oid : Nat) (t : Task),
      assocFind s.tasks tid = some oid → getTaskObj s oid = some t →
      t.status = TaskStatus.failed → t.retryCount < t.maxRetries →
      (retry_task s tid).1 = true ∧
      ∃ t2, getTaskObj (retry_task s tid).2.1 oid = some t2 ∧
        t2.retryCount = t.retryCount + 1 ∧ t2.error = none ∧
        t2.scheduledAt =
          s.now + t.retryDelay * 2 ^ (t.retryCount + 1 - 1)) ∧
    (∀ (s : MState) (oid : Nat) (t : Task) (msg : String),
      oid ∈ s.executing → getTaskObj s oid = some t →
      assocFind s.tasks t.id = some oid → t.retryCount < t.maxRetries →
      ∃ t2, getTaskObj (finishTask s oid (Except.error msg)).1 oid = some t2 ∧
        t2.retryCount = t.retryCount + 1 ∧ t2.error = none ∧
        t2.scheduledAt =
          s.now + t.retryDelay * 2 ^ (t.retryCount + 1 - 1)) := by
  have hretry : ∀ (s : MState) (tid : String) (oid : Nat) (t : Task),
      assocFind s.tasks tid = some oid → getTaskObj s oid = some t →
      t.status = TaskStatus.failed → t.retryCount < t.maxRetries →
      (retry_task s tid).1 = true ∧
      ∃ t2, getTaskObj (retry_task s tid).2.1 oid = some t2 ∧
        t2.retryCount = t.retryCount + 1 ∧ t2.error = none ∧
        t2.scheduledAt = s.now + t.retryDelay * 2 ^ (t.retryCount + 1 - 1) := by
    intro s tid oid t h1 h2 h3 h4
    have hnotle : ¬ t.maxRetries ≤ t.retryCount := Nat.not_le.mpr h4
    simp only [retry_task, h1, h2, h3, ne_eq, not_true_eq_false, if_false,
      hnotle, ite_false]
    constructor
    · split <;> rfl
    · split
      next hdep =>
        have hobj := getTaskObj_writeTask_self s oid
          { t with
              status := TaskStatus.retrying
              retryCount := t.retryCount + 1
              error := none
              scheduledAt := s.now + t.retryDelay * 2 ^ (t.retryCount + 1 - 1) }
        refine ⟨{ t with
            status := TaskStatus.queued
            retryCount := t.retryCount + 1
            error := none
            scheduledAt := s.now + t.retryDelay * 2 ^ (t.retryCount + 1 - 1) },
          ?_, rfl, rfl, rfl⟩
        rw [queue_task_eq _ _ _ hobj]
        simp [getTaskObj, writeTask, oidFind_oidPut_self]
      next hdep =>
        exact ⟨{ t with
            status := TaskStatus.retrying
            retryCount := t.retryCount + 1
            error := none
            scheduledAt := s.now + t.retryDelay * 2 ^ (t.retryCount + 1 - 1) },
          getTaskObj_writeTask_self s oid _, rfl, rfl, rfl⟩
  refine ⟨hretry, ?_⟩
  intro s oid t msg hexec h2 h1 h4
  simp only [finishTask, hexec, if_true, h2]
  set tf : Task :=
    { t with
        error := some msg
        status := TaskStatus.failed
        completedAt := some s.now } with htf
  set s2 : MState :=
    { writeTask s oid tf with metrics :=
        { (writeTask s oid tf).metrics with
            totalTasksFailed :=
              (writeTask s oid tf).metrics.totalTasksFailed + 1 } } with hs2
  have h1b : assocFind s2.tasks t.id = some oid := h1
  have h2b : getTaskObj s2 oid = some tf := getTaskObj_writeTask_self s oid tf
  have hfields : tf.retryCount = t.retryCount ∧
      tf.maxRetries = t.maxRetries ∧ tf.retryDelay = t.retryDelay ∧
      tf.status = TaskStatus.failed := ⟨rfl, rfl, rfl, rfl⟩
  have h4b : tf.retryCount < tf.maxRetries := by
    rw [hfields.1, hfields.2.1]; exact h4
  have hr := hretry s2 t.id oid tf h1b h2b hfields.2.2.2 h4b
  obtain ⟨hrtrue, t2, ht2, hrc, herr, hsched⟩ := hr
  simp only [h4, if_true]
  refine ⟨t2, ?_, ?_, herr, ?_⟩
  · simpa [reap, getTaskObj] using ht2
  · rw [hrc, hfields.1]
  · rw [hsched]
    rfl

/-- C6 (amended): the total-failed counter changes exactly at transitions
into `FAILED` — every operation increases `total_tasks_failed` by exactly
the number of `→ FAILED` transition events it emits (the failure path of
`_run_task` emits one and increments once, every other path emits none and
leaves the counter alone).  However, the counter counts *every* failure,
including failures that are immediately auto-retried, not only terminal
ones. -/
theorem C6_failed_counter (s : MState) (op : Op) :
    (applyOp s op).1.metrics.totalTasksFailed =
      s.metrics.totalTasksFailed +
        ((applyOp s op).2.filter isFailureEvent).length := by
  obtain ⟨hfilter, hscan, hdep, hexecf, hq, hretryf⟩ := no_failure_events_aux
  cases op with
  | tick =>
    simp only [applyOp, tick]
    obtain ⟨ft, fm, fn, fe, fr, fw, fev⟩ := check_scheduled_frame s
    split
    · cases hpop : heappop (check_scheduled_tasks s).1.taskQueue with
      | none => simp [fm, hscan s]
      | some pr =>
        obtain ⟨e, rest⟩ := pr
        have hm2 : (execute_task
            { (check_scheduled_tasks s).1 with taskQueue := rest }
            e.oid).1.metrics = s.metrics := by
          rw [(execute_task_frame _ _).2.1]; exact fm
        simp only [hpop]
        rw [List.filter_append, hscan s, hexecf _ _]
        simp [hm2]
    · simp [fm, hscan s]
  | advance dt => simp [applyOp]
  | create name taskType hasFunction priority scheduledAt maxRetries timeout
      deps =>
    simp only [applyOp]
    split
    next tid s2 evs heq =>
      simp only [create_task] at heq
      split at heq
      · exact absurd heq (by simp)
      · split at heq
        all_goals
          simp only [Except.ok.injEq, Prod.mk.injEq] at heq
          obtain ⟨h1, h2, h3⟩ := heq
        · rw [← h2, ← h3]
          rw [hq _ _]
          rw [(queue_task_frame _ _).2.1]
          simp
        · rw [← h2, ← h3]
          simp
    next heq => simp
  | cancel tid =>
    simp only [applyOp]
    obtain ⟨hm, hev⟩ := cancel_task_metrics_events s tid
    have hne : ∀ e ∈ (cancel_task s tid).2.2, e.dst ≠ TaskStatus.failed := by
      intro e he
      rw [hev e he]; decide
    simp [hm, hfilter _ hne]
  | retry tid =>
    simp only [applyOp]
    rw [hretryf s tid]
    simp [(retry_task_metrics_events s tid).1]
  | finish oid outcome =>
    simp only [applyOp, finishTask]
    split
    · cases hobj : getTaskObj s oid with
      | none => simp [hobj]
      | some t =>
        cases outcome with
        | ok res =>
          simp only [hobj]
          rw [List.filter_cons]
          have hno : isFailureEvent ⟨oid, t.status, TaskStatus.completed⟩ =
              false := rfl
          simp only [hno, Bool.false_eq_true, if_false, ite_false, reap]
          rw [hdep _ t.id]
          rw [show ∀ (x : MState) (a : List Nat) (b : List (String × Nat)),
            ({ x with executing := a, runningTasks := b } : MState).metrics
              = x.metrics from fun x a b => rfl]
          rw [(check_dependent_frame _ t.id).2.1]
          simp [writeTask]
        | error msg =>
          simp only [hobj]
          rw [List.filter_cons]
          have hf : isFailureEvent ⟨oid, t.status, TaskStatus.failed⟩ =
              true := rfl
          simp only [hf, if_true, ite_true, reap]
          split
          · rw [hretryf _ t.id]
            rw [show ∀ (x : MState) (a : List Nat) (b : List (String × Nat)),
              ({ x with executing := a, runningTasks := b } : MState).metrics
                = x.metrics from fun x a b => rfl]
            rw [(retry_task_metrics_events _ t.id).1]
            simp [writeTask]
          · simp [writeTask]
    · simp

/-- Counterexample to C6 as stated: a task with retries remaining fails
once; the failure is auto-retried (the task ends up re-queued, and no task
is terminally `FAILED`), yet `total_tasks_failed` is already 1 — the counter
does not equal the number of terminally failed tasks. -/
theorem C6_counterexample :
    (runOps (initState 5 1000)
        [Op.create "job" "health_check" false 2 none 3 300 [],
         Op.tick, Op.finish 0 (Except.error "boom")]).1.metrics.totalTasksFailed
      = 1 ∧
    failedTaskCount (runOps (initState 5 1000)
        [Op.create "job" "health_check" false 2 none 3 300 [],
         Op.tick, Op.finish 0 (Except.error "boom")]).1 = 0 ∧
    (1 : Nat) ≠ 0 := by
  decide

/-- Witness for `C3_retry_backoff`: a failed task with `retry_count = 1`,
`max_retries = 3`, `retry_delay = 60` is manually retried at clock 9; the
result has `retry_count = 2`, no error, and
`scheduled_at = 9 + 60 * 2 = 129`. -/
theorem C3_witness :
    (retry_task (oneTaskState TaskStatus.failed 1) "a_1").1 = true ∧
    ∃ t2, getTaskObj (retry_task (oneTaskState TaskStatus.failed 1)
        "a_1").2.1 0 = some t2 ∧
      t2.retryCount = 1 + 1 ∧ t2.error = none ∧
      t2.scheduledAt = 9 + 60 * 2 ^ (1 + 1 - 1) :=
  C3_retry_backoff.1 (oneTaskState TaskStatus.failed 1) "a_1" 0
    (mkTask TaskStatus.failed 1) (by decide) (by decide) (by decide)
    (by decide)

/-- C10: `retry_task` invoked on a `FAILED` task with retries remaining
whose dependencies are not all `Completed` returns `True`, sets the task to
`RETRYING` and does not queue it (the queue is unchanged); and a `RETRYING`
task that is neither queued nor running is then permanently stuck — across
any sequence of coordinating-loop ticks, clock advances and worker
completions (including completions of its dependencies, which only
re-evaluate `PENDING` tasks), its record stays exactly the same `RETRYING`
record and it is never queued or dispatched. -/
theorem C10_retry_unmet_deps_stuck :
    (∀ (s : MState) (tid : String) (oid : Nat) (t : Task) (d : String),
      assocFind s.tasks tid = some oid → getTaskObj s oid = some t →
      t.status = TaskStatus.failed → t.retryCount < t.maxRetries →
      d ∈ t.dependencies →
      (∀ t3, get_task s d = some t3 → t3.status ≠ TaskStatus.completed) →
      (retry_task s tid).1 = true ∧
      (getTaskObj (retry_task s tid).2.1 oid).map Task.status =
        some TaskStatus.retrying ∧
      (retry_task s tid).2.1.taskQueue = s.taskQueue) ∧
    (∀ (s : MState) (oid : Nat) (t : Task) (ops : List Op),
      getTaskObj s oid = some t → t.status = TaskStatus.retrying →
      oid ∉ queueOids s → oid ∉ s.executing →
      (∀ op ∈ ops, loopStep op) →
      getTaskObj (runState s ops) oid = some t ∧
      oid ∉ queueOids (runState s ops) ∧
      oid ∉ (runState s ops).executing) := by
  constructor
  · intro s tid oid t d h1 h2 h3 h4 hd hnc
    have hnotle : ¬ t.maxRetries ≤ t.retryCount := Nat.not_le.mpr h4
    have hdepf : dependencies_met
        (writeTask s oid
          { t with
              status := TaskStatus.retrying
              retryCount := t.retryCount + 1
              error := none
              scheduledAt :=
                s.now + t.retryDelay * 2 ^ (t.retryCount + 1 - 1) })
        { t with
            status := TaskStatus.retrying
            retryCount := t.retryCount + 1
            error := none
            scheduledAt :=
              s.now + t.retryDelay * 2 ^ (t.retryCount + 1 - 1) } = false := by
      unfold dependencies_met
      rw [List.all_eq_false]
      refine ⟨d, hd, ?_⟩
      unfold get_task
      have htsk : (writeTask s oid
          { t with
              status := TaskStatus.retrying
              retryCount := t.retryCount + 1
              error := none
              scheduledAt :=
                s.now + t.retryDelay * 2 ^ (t.retryCount + 1 - 1) }).tasks =
          s.tasks := rfl
      rw [htsk]
      cases ha : assocFind s.tasks d with
      | none => simp
      | some o =>
        simp only [Option.some_bind]
        by_cases ho : o = oid
        · subst ho
          rw [getTaskObj_writeTask_self]
          simp
        · rw [getTaskObj_writeTask_ne _ _ _ _ ho]
          cases hg : getTaskObj s o with
          | none => simp
          | some t3 =>
            have hne := hnc t3 (by unfold get_task; rw [ha]; simpa using hg)
            simp [hne]
    simp only [retry_task, h1, h2, h3, ne_eq, not_true_eq_false,
      not_false_eq_true, if_false, if_true, ite_true, ite_false, hnotle,
      hdepf, Bool.false_eq_true]
    refine ⟨by trivial, ?_, by trivial⟩
    rw [getTaskObj_writeTask_self]
    rfl
  · intro s oid t ops hobj hst hq hex hops
    obtain ⟨m1, m2, m3⟩ := stuck_run ops s oid hops
      ⟨t, hobj, Or.inl hst⟩ hq hex
    exact ⟨by rw [m1]; exact hobj, m2, m3⟩

/-- Witness for `C10_retry_unmet_deps_stuck`: a failed task depending on a
task that is still `PENDING` is retried — it becomes `RETRYING` and is not
queued — and a concrete `RETRYING` task survives a tick, a clock advance
and a (vacuous) completion untouched. -/
theorem C10_witness :
    ((retry_task twoTaskState "a_1").1 = true ∧
     (getTaskObj (retry_task twoTaskState "a_1").2.1 0).map Task.status =
        some TaskStatus.retrying ∧
     (retry_task twoTaskState "a_1").2.1.taskQueue =
        twoTaskState.taskQueue) ∧
    (getTaskObj (runState (oneTaskState TaskStatus.retrying 1)
        [Op.tick, Op.advance 100, Op.tick, Op.finish 7 (Except.ok "r"),
         Op.tick]) 0 = some (mkTask TaskStatus.retrying 1) ∧
     0 ∉ queueOids (runState (oneTaskState TaskStatus.retrying 1)
        [Op.tick, Op.advance 100, Op.tick, Op.finish 7 (Except.ok "r"),
         Op.tick]) ∧
     0 ∉ (runState (oneTaskState TaskStatus.retrying 1)
        [Op.tick, Op.advance 100, Op.tick, Op.finish 7 (Except.ok "r"),
         Op.tick]).executing) := by
  constructor
  · exact C10_retry_unmet_deps_stuck.1 twoTaskState "a_1" 0 failedWithDep
      "b_1" (by decide) (by decide) (by decide) (by decide) (by decide)
      (by
        intro t3 h3 hcon
        have he : get_task twoTaskState "b_1" = some depTask := by decide
        rw [he] at h3
        cases h3
        exact absurd hcon (by decide))
  · exact C10_retry_unmet_deps_stuck.2 (oneTaskState TaskStatus.retrying 1) 0
      (mkTask TaskStatus.retrying 1)
      [Op.tick, Op.advance 100, Op.tick, Op.finish 7 (Except.ok "r"),
       Op.tick] (by decide) (by decide) (by decide) (by decide)
      (by
        intro op hop
        fin_cases hop
        · exact Or.inl rfl
        · exact Or.inr (Or.inl ⟨100, rfl⟩)
        · exact Or.inl rfl
        · exact Or.inr (Or.inr ⟨7, Except.ok "r", rfl⟩)
        · exact Or.inl rfl)


/-- Every event emitted by `_queue_task` names a task whose dependencies are
met in the post-state, provided the queued object (if present) is
non-`COMPLETED` with met dependencies in the pre-state. -/
theorem queue_task_events_sound (s : MState) (oid : Nat)
    (hdep : ∀ t, getTaskObj s oid = some t →
      t.status ≠ TaskStatus.completed ∧ dependencies_met s t = true) :
    ∀ e ∈ (queue_task s oid).2,
      ∃ t2, getTaskObj (queue_task s oid).1 e.oid = some t2 ∧
        dependencies_met (queue_task s oid).1 t2 = true := by
  intro e he
  cases h : getTaskObj s oid with
  | none =>
    rw [show (queue_task s oid).2 = [] from by simp [queue_task, h]] at he
    cases he
  | some t =>
    rw [queue_task_eq s oid t h] at he
    rw [List.mem_singleton] at he
    subst he
    rw [queue_task_eq s oid t h]
    have hpost := queue_task_post_sound s oid t h (hdep t h).1 (hdep t h).2
    rw [queue_task_eq s oid t h] at hpost
    exact hpost

/-- C4: every `→ QUEUED` promotion event emitted by any single operation
names a task whose `_dependencies_met` check holds — for loop-scan
promotions it held on a `PENDING` task in the operation's pre-state, and for
the promotions performed on the way out of `create_task`, `retry_task` and
the worker-completion path it holds in the operation's post-state; and a
`PENDING` task naming a dependency id absent from the task table is stuck
forever: across any sequence of coordinating-loop ticks, clock advances and
worker completions its record is unchanged and it is never queued or
dispatched. -/
theorem C4_dependency_gating :
    (∀ (s : MState) (op : Op) (e : Event), e ∈ (applyOp s op).2 →
      e.dst = TaskStatus.queued →
      (∃ t, getTaskObj s e.oid = some t ∧ t.status = TaskStatus.pending ∧
        dependencies_met s t = true) ∨
      (∃ t, getTaskObj (applyOp s op).1 e.oid = some t ∧
        dependencies_met (applyOp s op).1 t = true)) ∧
    (∀ (s : MState) (oid : Nat) (t : Task) (d : String) (ops : List Op),
      getTaskObj s oid = some t → t.status = TaskStatus.pending →
      d ∈ t.dependencies → assocFind s.tasks d = none →
      oid ∉ queueOids s → oid ∉ s.executing →
      (∀ op ∈ ops, loopStep op) →
      getTaskObj (runState s ops) oid = some t ∧
      oid ∉ queueOids (runState s ops) ∧
      oid ∉ (runState s ops).executing) := by
  constructor
  · intro s op e he hq
    cases op with
    | tick =>
      left
      simp only [applyOp, tick] at he
      split at he
      · cases hpop : heappop (check_scheduled_tasks s).1.taskQueue with
        | none =>
          simp only [hpop] at he
          obtain ⟨t2, hb, hp2, _, hd2⟩ := (scan_evol_sound s).2 e he
          exact ⟨t2, hb, hp2, hd2⟩
        | some pr =>
          obtain ⟨e2, rest⟩ := pr
          simp only [hpop] at he
          rcases List.mem_append.mp he with he1 | he2
          · obtain ⟨t2, hb, hp2, _, hd2⟩ := (scan_evol_sound s).2 e he1
            exact ⟨t2, hb, hp2, hd2⟩
          · have hr := (execute_task_frame _ _).2.2.2 e he2
            rw [hr] at hq
            cases hq
      · obtain ⟨t2, hb, hp2, _, hd2⟩ := (scan_evol_sound s).2 e he
        exact ⟨t2, hb, hp2, hd2⟩
    | advance dt => cases he
    | create name taskType hasFunction priority scheduledAt maxRetries
        timeout deps =>
      right
      simp only [applyOp] at he ⊢
      split at he
      next tid s2 evs heq =>
        simp only [heq]
        simp only [create_task] at heq
        split at heq
        · exact absurd heq (by simp)
        · split at heq
          next hguard =>
            simp only [Except.ok.injEq, Prod.mk.injEq] at heq
            obtain ⟨h1, h2, h3⟩ := heq
            subst h2
            subst h3
            refine queue_task_events_sound _ _ ?_ e he
            intro t2 ht2
            simp only [getTaskObj, oidFind_oidPut_self,
              Option.some.injEq] at ht2
            subst ht2
            exact ⟨by simp, hguard⟩
          next hguard =>
            simp only [Except.ok.injEq, Prod.mk.injEq] at heq
            obtain ⟨h1, h2, h3⟩ := heq
            subst h3
            cases he
      next heq => cases he
    | cancel tid =>
      have hev := (cancel_task_metrics_events s tid).2 e he
      rw [hev] at hq
      cases hq
    | retry tid =>
      right
      exact retry_task_queued_sound s tid e he hq
    | finish oid2 outcome =>
      right
      exact finishTask_queued_sound s oid2 outcome e he hq
  · intro s oid t d ops h1 h2 h3 h4 h5 h6 hops
    obtain ⟨m1, m2, m3⟩ := stuck_run ops s oid hops
      ⟨t, h1, Or.inr ⟨h2, d, h3, h4⟩⟩ h5 h6
    exact ⟨by rw [m1]; exact h1, m2, m3⟩

/-- Witness for `C4_dependency_gating`: the promotion event emitted by a
concrete `create_task` call satisfies the gating disjunction, and a concrete
pending task depending on the nonexistent id `"ghost"` survives ticks, a
clock advance and a worker completion untouched, unqueued and undispatched. -/
theorem C4_witness :
    ((∃ t, getTaskObj (initState 5 1000) 0 = some t ∧
        t.status = TaskStatus.pending ∧
        dependencies_met (initState 5 1000) t = true) ∨
     (∃ t, getTaskObj (applyOp (initState 5 1000)
          (Op.create "job" "health_check" false 2 none 3 300 [])).1 0 =
            some t ∧
        dependencies_met (applyOp (initState 5 1000)
          (Op.create "job" "health_check" false 2 none 3 300 [])).1 t =
          true)) ∧
    (getTaskObj (runState orphanState
        [Op.tick, Op.advance 50, Op.tick, Op.finish 3 (Except.ok "r"),
         Op.tick]) 0 = some orphanTask ∧
     0 ∉ queueOids (runState orphanState
        [Op.tick, Op.advance 50, Op.tick, Op.finish 3 (Except.ok "r"),
         Op.tick]) ∧
     0 ∉ (runState orphanState
        [Op.tick, Op.advance 50, Op.tick, Op.finish 3 (Except.ok "r"),
         Op.tick]).executing) := by
  constructor
  · exact C4_dependency_gating.1 (initState 5 1000)
      (Op.create "job" "health_check" false 2 none 3 300 [])
      ⟨0, TaskStatus.pending, TaskStatus.queued⟩ (by decide) (by decide)
  · exact C4_dependency_gating.2 orphanState 0 orphanTask "ghost"
      [Op.tick, Op.advance 50, Op.tick, Op.finish 3 (Except.ok "r"),
       Op.tick] (by decide) (by decide) (by decide) (by decide) (by decide)
      (by decide)
      (by
        intro op hop
        fin_cases hop
        · exact Or.inl rfl
        · exact Or.inr (Or.inl ⟨50, rfl⟩)
        · exact Or.inl rfl
        · exact Or.inr (Or.inr ⟨3, Except.ok "r", rfl⟩)
        · exact Or.inl rfl)


/-! ### Permutation lemmas for the binary heap -/

theorem listGetD_listSet_ne {α : Type} (l : List α) (i j : Nat) (v d : α)
    (h : j ≠ i) : listGetD (listSet l i v) j d = listGetD l j d := by
  induction l generalizing i j with
  | nil => rfl
  | cons x xs ih =>
    cases i with
    | zero =>
      cases j with
      | zero => exact absurd rfl h
      | succ j => rfl
    | succ i =>
      cases j with
      | zero => rfl
      | succ j =>
        simp only [listSet, listGetD]
        exact ih i j (fun hc => h (by rw [hc]))

theorem listSet_getD_self {α : Type} (l : List α) (i : Nat) (d : α) :
    listSet l i (listGetD l i d) = l := by
  induction l generalizing i with
  | nil => rfl
  | cons x xs ih =>
    cases i with
    | zero => rfl
    | succ i => simp only [listSet, listGetD]; rw [ih]

theorem listSet_listSet_self {α : Type} (l : List α) (i : Nat) (v w : α) :
    listSet (listSet l i v) i w = listSet l i w := by
  induction l generalizing i with
  | nil => rfl
  | cons x xs ih =>
    cases i with
    | zero => rfl
    | succ i => simp only [listSet]; rw [ih]

theorem listSet_append_length {α : Type} (l : List α) (a v : α) :
    listSet (l ++ [a]) l.length v = l ++ [v] := by
  induction l with
  | nil => rfl
  | cons x xs ih =>
    show x :: listSet (xs ++ [a]) xs.length v = x :: (xs ++ [v])
    rw [ih]

/-- Replacing the element at an in-range index is, up to permutation,
removing it and inserting the new one. -/
theorem perm_listSet_getD {α : Type} (l : List α) (i : Nat) (v d : α)
    (h : i < l.length) :
    (listGetD l i d :: listSet l i v).Perm (v :: l) := by
  induction l generalizing i with
  | nil => cases h
  | cons x xs ih =>
    cases i with
    | zero => exact List.Perm.swap v x xs
    | succ i =>
      simp only [listGetD, listSet]
      exact (List.Perm.swap x (listGetD xs i d) (listSet xs i v)).trans
        (((ih i (Nat.lt_of_succ_lt_succ h)).cons x).trans
          (List.Perm.swap v x xs))

/-- Moving the element at `j` into the hole at `i` and then filling `j`
yields a permutation of filling the hole at `i` directly. -/
theorem listSet_exchange_perm {α : Type} (l : List α) (i j : Nat) (v d : α)
    (hi : i < l.length) (hj : j < l.length) (hne : j ≠ i) :
    (listSet (listSet l i (listGetD l j d)) j v).Perm (listSet l i v) := by
  have hlen : (listSet l i (listGetD l j d)).length = l.length :=
    listSet_length l i _
  have hA := perm_listSet_getD (listSet l i (listGetD l j d)) j v d
    (hlen ▸ hj)
  rw [listGetD_listSet_ne l i j _ d hne] at hA
  have hB := perm_listSet_getD l i (listGetD l j d) d hi
  have hC := perm_listSet_getD l i v d hi
  have e1 : (listGetD l j d :: listGetD l i d ::
      listSet (listSet l i (listGetD l j d)) j v).Perm
      (v :: listGetD l j d :: l) :=
    ((List.Perm.swap (listGetD l i d) (listGetD l j d) _).trans
      ((hA.cons (listGetD l i d)).trans
        (List.Perm.swap v (listGetD l i d) _))).trans
      ((hB.cons v))
  have e2 : (listGetD l j d :: listGetD l i d :: listSet l i v).Perm
      (v :: listGetD l j d :: l) :=
    ((hC.cons (listGetD l j d))).trans
      (List.Perm.swap v (listGetD l j d) l)
  exact ((e1.trans e2.symm).cons_inv).cons_inv

theorem siftdownFuel_perm (fuel : Nat) (l : List QEntry) (sp pos : Nat)
    (item : QEntry) (h : pos < l.length) :
    (siftdownFuel fuel l sp pos item).Perm (listSet l pos item) := by
  induction fuel generalizing l pos with
  | zero => exact List.Perm.refl _
  | succ fuel ih =>
    simp only [siftdownFuel]
    split
    next hsp =>
      split
      next hlt =>
        have hppos : (pos - 1) / 2 < pos :=
          Nat.lt_of_le_of_lt (Nat.div_le_self _ 2)
            (Nat.sub_lt (Nat.lt_of_le_of_lt (Nat.zero_le sp) hsp)
              Nat.one_pos)
        have hplen : (pos - 1) / 2 < (listSet l pos
            (listGetD l ((pos - 1) / 2) item)).length := by
          rw [listSet_length]
          exact Nat.lt_trans hppos h
        exact (ih _ _ hplen).trans
          (listSet_exchange_perm l pos ((pos - 1) / 2) item item h
            (Nat.lt_trans hppos h) (Nat.ne_of_lt hppos))
      next => exact List.Perm.refl _
    next => exact List.Perm.refl _

theorem siftupLoop_perm (fuel : Nat) (l : List QEntry) (pos : Nat)
    (item : QEntry) (endpos : Nat) (h : pos < l.length)
    (hend : endpos ≤ l.length) :
    (listSet (siftupLoop fuel l pos item endpos).1
        (siftupLoop fuel l pos item endpos).2 item).Perm
      (listSet l pos item) ∧
    (siftupLoop fuel l pos item endpos).2 < l.length ∧
    (siftupLoop fuel l pos item endpos).1.length = l.length := by
  induction fuel generalizing l pos with
  | zero => exact ⟨List.Perm.refl _, h, rfl⟩
  | succ fuel ih =>
    simp only [siftupLoop]
    split
    next hchild =>
      set j := if (2 * pos + 1 + 1 < endpos : Bool) &&
          !qlt (listGetD l (2 * pos + 1) item)
            (listGetD l (2 * pos + 1 + 1) item) then 2 * pos + 1 + 1
        else 2 * pos + 1 with hj
      have hjlt : j < endpos := by
        rw [hj]
        split
        next hcond =>
          simp only [Bool.and_eq_true] at hcond
          exact of_decide_eq_true hcond.1
        next => exact hchild
      have hjpos : pos < j := by
        rw [hj]
        split <;> omega
      have hjlen : j < (listSet l pos (listGetD l j item)).length := by
        rw [listSet_length]
        exact Nat.lt_of_lt_of_le hjlt hend
      have hendlen : endpos ≤ (listSet l pos (listGetD l j item)).length := by
        rw [listSet_length]; exact hend
      obtain ⟨p1, p2, p3⟩ := ih (listSet l pos (listGetD l j item)) j
        hjlen hendlen
      rw [listSet_length] at p2 p3
      refine ⟨p1.trans ?_, p2, p3⟩
      exact listSet_exchange_perm l pos j item item h
        (Nat.lt_of_lt_of_le hjlt hend) (Nat.ne_of_gt hjpos)
    next => exact ⟨List.Perm.refl _, h, rfl⟩

theorem siftup_perm (l : List QEntry) (h : 0 < l.length) :
    (siftup l 0).Perm l := by
  simp only [siftup]
  obtain ⟨p1, p2, p3⟩ := siftupLoop_perm l.length l 0
    (listGetD l 0 ⟨0, 0⟩) l.length h (Nat.le_refl _)
  have hb : (siftupLoop l.length l 0 (listGetD l 0 ⟨0, 0⟩) l.length).2 <
      (listSet (siftupLoop l.length l 0 (listGetD l 0 ⟨0, 0⟩) l.length).1
        (siftupLoop l.length l 0 (listGetD l 0 ⟨0, 0⟩) l.length).2
        (listGetD l 0 ⟨0, 0⟩)).length := by
    rw [listSet_length, p3]; exact p2
  refine ((siftdownFuel_perm _ _ _ _ _ hb).trans ?_)
  rw [listSet_listSet_self]
  exact p1.trans (by rw [listSet_getD_self])

theorem heappush_perm (l : List QEntry) (e : QEntry) :
    (heappush l e).Perm (e :: l) := by
  simp only [heappush]
  have hlen : (l ++ [e]).length - 1 = l.length := by simp
  have hb : (l ++ [e]).length - 1 < (l ++ [e]).length := by simp
  refine (siftdownFuel_perm _ _ _ _ _ hb).trans ?_
  rw [hlen, listSet_append_length]
  exact List.perm_append_comm

theorem heappop_perm (l : List QEntry) (e : QEntry) (rest : List QEntry)
    (h : heappop l = some (e, rest)) : l.Perm (e :: rest) := by
  simp only [heappop] at h
  cases hlast : l.getLast? with
  | none => rw [hlast] at h; exact absurd h (by simp)
  | some lastelt =>
    rw [hlast] at h
    have hne : l ≠ [] := by
      intro hc; rw [hc] at hlast; cases hlast
    have hgl : l.getLast hne = lastelt := by
      have h5 := List.getLast?_eq_getLast l hne
      rw [h5, Option.some.injEq] at hlast
      exact hlast
    have hdecomp : l.dropLast ++ [lastelt] = l := by
      rw [← hgl]
      exact List.dropLast_append_getLast hne
    by_cases hre : l.dropLast.isEmpty
    · simp only [hre, if_true, ite_true, Option.some.injEq,
        Prod.mk.injEq] at h
      obtain ⟨h1, h2⟩ := h
      subst h1
      subst h2
      rw [List.isEmpty_iff] at hre
      have hfin : (l.dropLast ++ [lastelt]).Perm (lastelt :: l.dropLast) :=
        List.perm_append_comm
      rw [hre] at hfin
      exact hdecomp ▸ (by rw [hre]; exact hfin)
    · simp only [hre, if_false, ite_false, Bool.false_eq_true,
        Option.some.injEq, Prod.mk.injEq] at h
      obtain ⟨h1, h2⟩ := h
      subst h1
      subst h2
      have hdl : 0 < l.dropLast.length := by
        cases hdll : l.dropLast with
        | nil => rw [hdll] at hre; exact absurd rfl hre
        | cons a as => simp
      have hsl : 0 < (listSet l.dropLast 0 lastelt).length := by
        rw [listSet_length]; exact hdl
      have hperm2 : (siftup (listSet l.dropLast 0 lastelt) 0).Perm
          (listSet l.dropLast 0 lastelt) := siftup_perm _ hsl
      have hperm3 := perm_listSet_getD l.dropLast 0 lastelt lastelt hdl
      have hfin : (l.dropLast ++ [lastelt]).Perm
          (listGetD l.dropLast 0 lastelt ::
            siftup (listSet l.dropLast 0 lastelt) 0) :=
        List.perm_append_comm.trans
          (hperm3.symm.trans (hperm2.symm.cons _))
      conv_lhs => rw [← hdecomp]
      exact hfin

/-! ### Preservation of well-formedness -/

theorem oidFind_mem (l : List (Nat × Task)) (k : Nat) (v : Task)
    (h : oidFind l k = some v) : (k, v) ∈ l := by
  induction l with
  | nil => cases h
  | cons p rest ih =>
    simp only [oidFind] at h
    split at h
    next heq =>
      rw [Option.some.injEq] at h
      subst h
      rw [← heq]
      exact List.mem_cons_self _ _
    next heq => exact List.mem_cons_of_mem _ (ih h)

theorem mem_oidPut (l : List (Nat × Task)) (k : Nat) (v : Task)
    (p : Nat × Task) (h : p ∈ oidPut l k v) : p ∈ l ∨ p = (k, v) := by
  induction l with
  | nil =>
    simp only [oidPut, List.mem_singleton] at h
    exact Or.inr h
  | cons q rest ih =>
    simp only [oidPut] at h
    split at h
    next heq =>
      rcases List.mem_cons.mp h with h2 | h2
      · rw [h2, ← heq]
        exact Or.inr rfl
      · exact Or.inl (List.mem_cons_of_mem _ h2)
    next heq =>
      rcases List.mem_cons.mp h with h2 | h2
      · exact Or.inl (h2 ▸ List.mem_cons_self _ _)
      · rcases ih h2 with h3 | h3
        · exact Or.inl (List.mem_cons_of_mem _ h3)
        · exact Or.inr h3

/-- `_queue_task` on a `PENDING` or `RETRYING` object preserves
well-formedness. -/
theorem queue_task_WF (s : MState) (oid : Nat) (t : Task) (ex : List Nat)
    (h : WF s ex) (hobj : getTaskObj s oid = some t)
    (hst : t.status = TaskStatus.pending ∨ t.status = TaskStatus.retrying) :
    WF (queue_task s oid).1 ex := by
  obtain ⟨hS, hQ, hE, hN, hEN⟩ := h
  have hoidlt : oid < s.nextOid := hS _ (oidFind_mem _ _ _ hobj)
  have hnotq : oid ∉ queueOids s := by
    intro hmem
    simp only [queueOids, List.mem_map] at hmem
    obtain ⟨qe, hqe, hqeo⟩ := hmem
    obtain ⟨t3, ht3, hst3⟩ := hQ qe hqe
    rw [hqeo, hobj, Option.some.injEq] at ht3
    subst ht3
    rcases hst with h1 | h1 <;> rcases hst3 with h2 | h2 <;>
      rw [h1] at h2 <;> cases h2
  rw [queue_task_eq s oid t hobj]
  refine ⟨?_, ?_, ?_, ?_, hEN⟩
  · intro p hp
    rcases mem_oidPut _ _ _ _ hp with hp2 | hp2
    · exact hS p hp2
    · rw [hp2]; exact hoidlt
  · intro qe hqe
    rcases mem_heappush _ _ _ hqe with hq2 | hq2
    · obtain ⟨t3, ht3, hst3⟩ := hQ qe hq2
      have hne : qe.oid ≠ oid := by
        intro hc
        rw [hc, hobj, Option.some.injEq] at ht3
        subst ht3
        rcases hst with h1 | h1 <;> rcases hst3 with h2 | h2 <;>
          rw [h1] at h2 <;> cases h2
      refine ⟨t3, ?_, hst3⟩
      simp only [getTaskObj]
      rw [oidFind_oidPut_ne _ _ _ _ hne]
      exact ht3
    · rw [hq2]
      refine ⟨{ t with status := TaskStatus.queued }, ?_, Or.inl rfl⟩
      simp only [getTaskObj]
      exact oidFind_oidPut_self _ _ _
  · intro o ho
    rcases hE o ho with h1 | ⟨t3, ht3, hst3⟩
    · exact Or.inl h1
    · right
      have hne : o ≠ oid := by
        intro hc
        rw [hc, hobj, Option.some.injEq] at ht3
        subst ht3
        rcases hst with h1 | h1 <;> rw [h1] at hst3 <;> cases hst3
      refine ⟨t3, ?_, hst3⟩
      simp only [getTaskObj]
      rw [oidFind_oidPut_ne _ _ _ _ hne]
      exact ht3
  · simp only [queueOids]
    have hperm := (heappush_perm s.taskQueue ⟨t.priority, oid⟩).map
      QEntry.oid
    exact hperm.nodup_iff.mpr (List.nodup_cons.mpr ⟨hnotq, hN⟩)

/-- The readiness scan preserves well-formedness, and every event it emits
is a `PENDING → QUEUED` promotion. -/
theorem scan_WF (s : MState) (ex : List Nat) (h : WF s ex) :
    WF (check_scheduled_tasks s).1 ex ∧
    ∀ e ∈ (check_scheduled_tasks s).2,
      e.src = TaskStatus.pending ∧ e.dst = TaskStatus.queued := by
  exact foldl_inv scanStep
    (P := fun acc => WF acc.1 ex ∧ ∀ e ∈ acc.2,
      e.src = TaskStatus.pending ∧ e.dst = TaskStatus.queued)
    (fun acc oid hP => by
      obtain ⟨hW, hev⟩ := hP
      rcases scanStep_eq acc oid with heq | ⟨t, hobj, hpend, hsch, hdep, heq⟩
      · rw [heq]; exact ⟨hW, hev⟩
      · rw [heq]
        refine ⟨queue_task_WF acc.1 oid t ex hW hobj (Or.inl hpend), ?_⟩
        intro e he
        rcases List.mem_append.mp he with he1 | he1
        · exact hev e he1
        · rw [queue_task_eq acc.1 oid t hobj, List.mem_singleton] at he1
          subst he1
          exact ⟨hpend, rfl⟩)
    (s.tasks.map Prod.snd) (s, []) ⟨h, by simp⟩

/-- The dependents re-evaluation preserves well-formedness, and every event
it emits is a `PENDING → QUEUED` promotion. -/
theorem dep_WF (s : MState) (cid : String) (ex : List Nat) (h : WF s ex) :
    WF (check_dependent_tasks s cid).1 ex ∧
    ∀ e ∈ (check_dependent_tasks s cid).2,
      e.src = TaskStatus.pending ∧ e.dst = TaskStatus.queued := by
  exact foldl_inv (depStep cid)
    (P := fun acc => WF acc.1 ex ∧ ∀ e ∈ acc.2,
      e.src = TaskStatus.pending ∧ e.dst = TaskStatus.queued)
    (fun acc oid hP => by
      obtain ⟨hW, hev⟩ := hP
      rcases depStep_eq cid acc oid with heq | ⟨t, hobj, hpend, hmem, hdep,
        heq⟩
      · rw [heq]; exact ⟨hW, hev⟩
      · rw [heq]
        refine ⟨queue_task_WF acc.1 oid t ex hW hobj (Or.inl hpend), ?_⟩
        intro e he
        rcases List.mem_append.mp he with he1 | he1
        · exact hev e he1
        · rw [queue_task_eq acc.1 oid t hobj, List.mem_singleton] at he1
          subst he1
          exact ⟨hpend, rfl⟩)
    (s.tasks.map Prod.snd) (s, []) ⟨h, by simp⟩

/-- Overwriting one object preserves well-formedness, provided the new
record is still queue-compatible (resp. pool-compatible) whenever the old
one was. -/
theorem writeTask_WF (s : MState) (oid : Nat) (t t2 : Task)
    (ex ex2 : List Nat) (h : WF s ex) (hobj : getTaskObj s oid = some t)
    (hsub : ∀ o, o ∈ ex → o ∈ ex2)
    (hQ2 : t.status = TaskStatus.queued ∨ t.status = TaskStatus.cancelled →
      t2.status = TaskStatus.queued ∨ t2.status = TaskStatus.cancelled)
    (hE2 : t.status = TaskStatus.running →
      oid ∈ ex2 ∨ t2.status = TaskStatus.running) :
    WF (writeTask s oid t2) ex2 := by
  obtain ⟨hS, hQ, hE, hN, hEN⟩ := h
  have hoidlt : oid < s.nextOid := hS _ (oidFind_mem _ _ _ hobj)
  refine ⟨?_, ?_, ?_, hN, hEN⟩
  · intro p hp
    rcases mem_oidPut _ _ _ _ hp with hp2 | hp2
    · exact hS p hp2
    · rw [hp2]; exact hoidlt
  · intro qe hqe
    obtain ⟨t3, ht3, hst3⟩ := hQ qe hqe
    by_cases hc : qe.oid = oid
    · rw [hc, hobj, Option.some.injEq] at ht3
      subst ht3
      refine ⟨t2, ?_, hQ2 hst3⟩
      rw [hc]
      exact getTaskObj_writeTask_self s oid t2
    · refine ⟨t3, ?_, hst3⟩
      rw [getTaskObj_writeTask_ne _ _ _ _ hc]
      exact ht3
  · intro o ho
    rcases hE o ho with h1 | ⟨t3, ht3, hst3⟩
    · exact Or.inl (hsub o h1)
    · by_cases hc : o = oid
      · rw [hc, hobj, Option.some.injEq] at ht3
        subst ht3
        rcases hE2 hst3 with h2 | h2
        · exact Or.inl (hc ▸ h2)
        · refine Or.inr ⟨t2, ?_, h2⟩
          rw [hc]
          exact getTaskObj_writeTask_self s oid t2
      · refine Or.inr ⟨t3, ?_, hst3⟩
        rw [getTaskObj_writeTask_ne _ _ _ _ hc]
        exact ht3

/-- `retry_task` preserves well-formedness and only emits
`FAILED → RETRYING` and `RETRYING → QUEUED` transitions. -/
theorem retry_WF (s : MState) (tid : String) (ex : List Nat) (h : WF s ex) :
    WF (retry_task s tid).2.1 ex ∧
    ∀ e ∈ (retry_task s tid).2.2, extendedEdge e.src e.dst = true := by
  unfold retry_task
  cases h1 : assocFind s.tasks tid with
  | none => exact ⟨h, by simp⟩
  | some oid =>
    cases h2 : getTaskObj s oid with
    | none => simp only [h2]; exact ⟨h, by simp⟩
    | some t =>
      by_cases h3 : t.status = TaskStatus.failed
      · by_cases h4 : t.maxRetries ≤ t.retryCount
        · simp only [h2, h3, h4, ne_eq, not_true_eq_false, if_false,
            if_true, ite_true, ite_false]
          exact ⟨h, by simp⟩
        · simp only [h2, h3, h4, ne_eq, not_true_eq_false,
            not_false_eq_true, if_false, if_true, ite_true, ite_false]
          have hW1 : WF (writeTask s oid
              { t with
                  status := TaskStatus.retrying
                  retryCount := t.retryCount + 1
                  error := none
                  scheduledAt :=
                    s.now + t.retryDelay * 2 ^ (t.retryCount + 1 - 1) })
              ex :=
            writeTask_WF s oid t _ ex ex h h2 (fun o ho => ho)
              (by intro hc; rcases hc with hc | hc <;> rw [h3] at hc <;>
                cases hc)
              (by intro hc; rw [h3] at hc; cases hc)
          have hobj2 := getTaskObj_writeTask_self s oid
            { t with
                status := TaskStatus.retrying
                retryCount := t.retryCount + 1
                error := none
                scheduledAt :=
                  s.now + t.retryDelay * 2 ^ (t.retryCount + 1 - 1) }
          split
          next hdep =>
            refine ⟨queue_task_WF _ oid _ ex hW1 hobj2 (Or.inr rfl), ?_⟩
            intro e he
            rcases List.mem_cons.mp he with he1 | he1
            · subst he1
              show extendedEdge TaskStatus.failed TaskStatus.retrying = true
              decide
            · rw [queue_task_eq _ oid _ hobj2, List.mem_singleton] at he1
              subst he1
              show extendedEdge TaskStatus.retrying TaskStatus.queued = true
              decide
          next hdep =>
            refine ⟨hW1, ?_⟩
            intro e he
            rw [List.mem_singleton] at he
            subst he
            show extendedEdge TaskStatus.failed TaskStatus.retrying = true
            decide
      · simp only [h2, h3, ne_eq, not_false_eq_true, if_true, ite_true]
        exact ⟨h, by simp⟩

/-- Reaping a finished future restores unconditional well-formedness. -/
theorem reap_WF (s : MState) (oid : Nat) (ex : List Nat)
    (h : WF s (oid :: ex)) : WF (reap s oid) ex := by
  obtain ⟨hS, hQ, hE, hN, hEN⟩ := h
  refine ⟨hS, hQ, ?_, hN, List.Nodup.erase oid hEN⟩
  intro o ho
  obtain ⟨hne, hmem⟩ := (List.Nodup.mem_erase_iff hEN).mp ho
  rcases hE o hmem with h1 | h2
  · rcases List.mem_cons.mp h1 with h3 | h3
    · exact absurd h3 hne
    · exact Or.inl h3
  · exact Or.inr h2

/-- Dispatching a popped queue entry whose object is `QUEUED` or `CANCELLED`
(and no longer in the queue) preserves well-formedness, and the single event
it emits is an allowed edge. -/
theorem execute_task_WF (s : MState) (oid : Nat) (t : Task)
    (h : WF s []) (hobj : getTaskObj s oid = some t)
    (hst : t.status = TaskStatus.queued ∨ t.status = TaskStatus.cancelled)
    (hnq : oid ∉ queueOids s) :
    WF (execute_task s oid).1 [] ∧
    ∀ e ∈ (execute_task s oid).2, extendedEdge e.src e.dst = true := by
  obtain ⟨hS, hQ, hE, hN, hEN⟩ := h
  have hoidlt : oid < s.nextOid := hS _ (oidFind_mem _ _ _ hobj)
  have hnexec : oid ∉ s.executing := by
    intro hmem
    rcases hE oid hmem with h1 | ⟨t3, ht3, hst3⟩
    · cases h1
    · rw [hobj, Option.some.injEq] at ht3
      subst ht3
      rcases hst with h4 | h4 <;> rw [h4] at hst3 <;> cases hst3
  simp only [execute_task, hobj]
  constructor
  · refine ⟨?_, ?_, ?_, hN, ?_⟩
    · intro p hp
      rcases mem_oidPut _ _ _ _ hp with hp2 | hp2
      · exact hS p hp2
      · rw [hp2]; exact hoidlt
    · intro qe hqe
      obtain ⟨t3, ht3, hst3⟩ := hQ qe hqe
      have hne : qe.oid ≠ oid := by
        intro hc
        exact hnq (hc ▸ List.mem_map_of_mem QEntry.oid hqe)
      refine ⟨t3, ?_, hst3⟩
      simp only [getTaskObj, writeTask]
      rw [oidFind_oidPut_ne _ _ _ _ hne]
      exact ht3
    · intro o ho
      rcases List.mem_append.mp ho with ho1 | ho1
      · rcases hE o ho1 with h1 | ⟨t3, ht3, hst3⟩
        · cases h1
        · have hne : o ≠ oid := by
            intro hc
            rw [hc, hobj, Option.some.injEq] at ht3
            subst ht3
            rcases hst with h4 | h4 <;> rw [h4] at hst3 <;> cases hst3
          refine Or.inr ⟨t3, ?_, hst3⟩
          simp only [getTaskObj, writeTask]
          rw [oidFind_oidPut_ne _ _ _ _ hne]
          exact ht3
      · rw [List.mem_singleton] at ho1
        subst ho1
        refine Or.inr
          ⟨{ t with status := TaskStatus.running, startedAt := some s.now },
            ?_, rfl⟩
        simp only [getTaskObj, writeTask]
        exact oidFind_oidPut_self _ _ _
    · have hperm : (s.executing ++ [oid]).Perm (oid :: s.executing) :=
        List.perm_append_comm
      exact hperm.nodup_iff.mpr (List.nodup_cons.mpr ⟨hnexec, hEN⟩)
  · intro e he
    rw [List.mem_singleton] at he
    subst he
    show extendedEdge t.status TaskStatus.running = true
    rcases hst with h4 | h4 <;> rw [h4] <;> decide

/-- Allocating a fresh task object (as `create_task` does before queueing)
preserves well-formedness. -/
theorem create_state_WF (s : MState) (t2 : Task) (tid2 : String)
    (m2 : Metrics) (ex : List Nat) (h : WF s ex) :
    WF { s with
        nextOid := s.nextOid + 1
        store := oidPut s.store s.nextOid t2
        tasks := assocPut s.tasks tid2 s.nextOid
        metrics := m2 } ex := by
  obtain ⟨hS, hQ, hE, hN, hEN⟩ := h
  have hfresh : ∀ (u : Task), getTaskObj s s.nextOid ≠ some u := by
    intro u hu
    exact absurd (hS _ (oidFind_mem _ _ _ hu)) (Nat.lt_irrefl _)
  refine ⟨?_, ?_, ?_, hN, hEN⟩
  · intro p hp
    rcases mem_oidPut _ _ _ _ hp with hp2 | hp2
    · exact Nat.lt_trans (hS p hp2) (Nat.lt_succ_self _)
    · rw [hp2]; exact Nat.lt_succ_self _
  · intro qe hqe
    obtain ⟨t3, ht3, hst3⟩ := hQ qe hqe
    have hne : qe.oid ≠ s.nextOid := fun hc => hfresh t3 (hc ▸ ht3)
    refine ⟨t3, ?_, hst3⟩
    simp only [getTaskObj]
    rw [oidFind_oidPut_ne _ _ _ _ hne]
    exact ht3
  · intro o ho
    rcases hE o ho with h1 | ⟨t3, ht3, hst3⟩
    · exact Or.inl h1
    · have hne : o ≠ s.nextOid := fun hc => hfresh t3 (hc ▸ ht3)
      refine Or.inr ⟨t3, ?_, hst3⟩
      simp only [getTaskObj]
      rw [oidFind_oidPut_ne _ _ _ _ hne]
      exact ht3

/-- Every scheduler operation preserves well-formedness and only emits
allowed transition edges. -/
theorem applyOp_WF (s : MState) (op : Op) (h : WF s []) :
    WF (applyOp s op).1 [] ∧
    ∀ e ∈ (applyOp s op).2, extendedEdge e.src e.dst = true := by
  cases op with
  | advance dt =>
    refine ⟨h, ?_⟩
    intro e he
    simp [applyOp] at he
  | tick =>
    obtain ⟨hW1, hev1⟩ := scan_WF s [] h
    simp only [applyOp, tick]
    split
    next hcond =>
      cases hpop : heappop (check_scheduled_tasks s).1.taskQueue with
      | none =>
        simp only [hpop]
        refine ⟨hW1, ?_⟩
        intro e he
        obtain ⟨h1, h2⟩ := hev1 e he
        rw [h1, h2]
        decide
      | some pr =>
        obtain ⟨e2, rest⟩ := pr
        simp only [hpop]
        obtain ⟨hS1, hQ1, hE1, hN1, hEN1⟩ := hW1
        have hqperm :=
          (heappop_perm _ _ _ hpop).map QEntry.oid
        have hN2 : (e2.oid :: rest.map QEntry.oid).Nodup :=
          hqperm.nodup_iff.mp hN1
        have he2notrest : e2.oid ∉ rest.map QEntry.oid :=
          (List.nodup_cons.mp hN2).1
        have hNrest : (rest.map QEntry.oid).Nodup :=
          (List.nodup_cons.mp hN2).2
        have he2mem : e2 ∈ (check_scheduled_tasks s).1.taskQueue :=
          (heappop_mem _ _ _ hpop).1
        obtain ⟨t, hto, hst⟩ := hQ1 e2 he2mem
        have hW2 : WF { (check_scheduled_tasks s).1 with
            taskQueue := rest } [] :=
          ⟨hS1, fun qe hqe => hQ1 qe ((heappop_mem _ _ _ hpop).2 qe hqe),
            hE1, hNrest, hEN1⟩
        have hto2 : getTaskObj { (check_scheduled_tasks s).1 with
            taskQueue := rest } e2.oid = some t := hto
        obtain ⟨hWX, hevX⟩ := execute_task_WF
          { (check_scheduled_tasks s).1 with taskQueue := rest } e2.oid t
          hW2 hto2 hst he2notrest
        refine ⟨hWX, ?_⟩
        intro e he
        rcases List.mem_append.mp he with he1 | he1
        · obtain ⟨h1, h2⟩ := hev1 e he1
          rw [h1, h2]
          decide
        · exact hevX e he1
    next hcond =>
      refine ⟨hW1, ?_⟩
      intro e he
      obtain ⟨h1, h2⟩ := hev1 e he
      rw [h1, h2]
      decide
  | create name taskType hasFunction priority scheduledAt maxRetries
      timeout deps =>
    simp only [applyOp]
    split
    next tid s2 evs heq =>
      simp only [create_task] at heq
      split at heq
      · exact absurd heq (by simp)
      · split at heq
        next hguard =>
          simp only [Except.ok.injEq, Prod.mk.injEq] at heq
          obtain ⟨h1, h2, h3⟩ := heq
          subst h2
          subst h3
          have hWc := create_state_WF s
            { id := taskType ++ "_" ++ toString s.now
              name := name
              taskType := taskType
              priority := priority
              status := TaskStatus.pending
              createdAt := s.now
              scheduledAt := scheduledAt.getD s.now
              startedAt := none
              completedAt := none
              retryCount := 0
              maxRetries := maxRetries
              retryDelay := 60
              timeout := timeout
              dependencies := deps
              result := none
              error := none }
            (taskType ++ "_" ++ toString s.now)
            { s.metrics with
              totalTasksCreated := s.metrics.totalTasksCreated + 1 } [] h
          have hobjn : getTaskObj { s with
              nextOid := s.nextOid + 1
              store := oidPut s.store s.nextOid
                { id := taskType ++ "_" ++ toString s.now
                  name := name
                  taskType := taskType
                  priority := priority
                  status := TaskStatus.pending
                  createdAt := s.now
                  scheduledAt := scheduledAt.getD s.now
                  startedAt := none
                  completedAt := none
                  retryCount := 0
                  maxRetries := maxRetries
                  retryDelay := 60
                  timeout := timeout
                  dependencies := deps
                  result := none
                  error := none }
              tasks := assocPut s.tasks (taskType ++ "_" ++ toString s.now)
                s.nextOid
              metrics := { s.metrics with
                totalTasksCreated := s.metrics.totalTasksCreated + 1 } }
              s.nextOid = some
                { id := taskType ++ "_" ++ toString s.now
                  name := name
                  taskType := taskType
                  priority := priority
                  status := TaskStatus.pending
                  createdAt := s.now
                  scheduledAt := scheduledAt.getD s.now
                  startedAt := none
                  completedAt := none
                  retryCount := 0
                  maxRetries := maxRetries
                  retryDelay := 60
                  timeout := timeout
                  dependencies := deps
                  result := none
                  error := none } := by
            simp only [getTaskObj]
            exact oidFind_oidPut_self _ _ _
          refine ⟨queue_task_WF _ s.nextOid _ [] hWc hobjn (Or.inl rfl), ?_⟩
          intro e he
          rw [queue_task_eq _ _ _ hobjn, List.mem_singleton] at he
          subst he
          show extendedEdge TaskStatus.pending TaskStatus.queued = true
          decide
        next hguard =>
          simp only [Except.ok.injEq, Prod.mk.injEq] at heq
          obtain ⟨h1, h2, h3⟩ := heq
          subst h2
          subst h3
          refine ⟨create_state_WF s _ _ _ [] h, ?_⟩
          intro e he
          cases he
    next heq => exact ⟨h, fun e he => absurd he (List.not_mem_nil e)⟩
  | cancel tid =>
    simp only [applyOp]
    unfold cancel_task
    cases h1 : assocFind s.tasks tid with
    | none => exact ⟨h, fun e he => absurd he (List.not_mem_nil e)⟩
    | some oid =>
      cases h2 : getTaskObj s oid with
      | none =>
        simp only [h2]
        exact ⟨h, fun e he => absurd he (List.not_mem_nil e)⟩
      | some t =>
        simp only [h2]
        split
        next h3 =>
          constructor
          · exact writeTask_WF s oid t _ [] [] h h2 (fun o ho => ho)
              (fun _ => Or.inr rfl)
              (fun hc => by
                rcases h3 with h4 | h4 <;> rw [h4] at hc <;> cases hc)
          · intro e he
            rw [List.mem_singleton] at he
            subst he
            show extendedEdge t.status TaskStatus.cancelled = true
            rcases h3 with h4 | h4 <;> rw [h4] <;> decide
        next h3 => exact ⟨h, fun e he => absurd he (List.not_mem_nil e)⟩
  | retry tid => exact retry_WF s tid [] h
  | finish oid outcome =>
    simp only [applyOp]
    unfold finishTask
    split
    next hex =>
      cases hobj : getTaskObj s oid with
      | none => exact ⟨h, fun e he => absurd he (List.not_mem_nil e)⟩
      | some t =>
        simp only [hobj]
        have hrun : t.status = TaskStatus.running := by
          rcases h.2.2.1 oid hex with h1 | ⟨t3, ht3, hst3⟩
          · cases h1
          · rw [hobj, Option.some.injEq] at ht3
            subst ht3
            exact hst3
        cases outcome with
        | ok res =>
          simp only []
          have hW2 : WF { writeTask s oid
              { t with
                  result := some res
                  status := TaskStatus.completed
                  completedAt := some s.now } with
              metrics := { (writeTask s oid
                  { t with
                      result := some res
                      status := TaskStatus.completed
                      completedAt := some s.now }).metrics with
                totalExecutionTime := (writeTask s oid
                  { t with
                      result := some res
                      status := TaskStatus.completed
                      completedAt := some s.now
                  }).metrics.totalExecutionTime +
                    (s.now - t.startedAt.getD s.now)
                totalTasksCompleted := (writeTask s oid
                  { t with
                      result := some res
                      status := TaskStatus.completed
                      completedAt := some s.now
                  }).metrics.totalTasksCompleted + 1 } } [oid] :=
            writeTask_WF s oid t _ [] [oid] h hobj
              (fun o ho => absurd ho (List.not_mem_nil o))
              (fun hc => by rw [hrun] at hc; rcases hc with hc | hc <;>
                cases hc)
              (fun _ => Or.inl (List.mem_cons_self _ _))
          obtain ⟨hW3, hev3⟩ := dep_WF _ t.id [oid] hW2
          constructor
          · exact reap_WF _ oid [] hW3
          · intro e he
            rcases List.mem_cons.mp he with he1 | he1
            · subst he1
              show extendedEdge t.status TaskStatus.completed = true
              rw [hrun]
              decide
            · obtain ⟨h4, h5⟩ := hev3 e he1
              rw [h4, h5]
              decide
        | error msg =>
          simp only []
          have hW2 : WF { writeTask s oid
              { t with
                  error := some msg
                  status := TaskStatus.failed
                  completedAt := some s.now } with
              metrics := { (writeTask s oid
                  { t with
                      error := some msg
                      status := TaskStatus.failed
                      completedAt := some s.now }).metrics with
                totalTasksFailed := (writeTask s oid
                  { t with
                      error := some msg
                      status := TaskStatus.failed
                      completedAt := some s.now
                  }).metrics.totalTasksFailed + 1 } } [oid] :=
            writeTask_WF s oid t _ [] [oid] h hobj
              (fun o ho => absurd ho (List.not_mem_nil o))
              (fun hc => by rw [hrun] at hc; rcases hc with hc | hc <;>
                cases hc)
              (fun _ => Or.inl (List.mem_cons_self _ _))
          split
          next hrc =>
            obtain ⟨hW3, hev3⟩ := retry_WF _ t.id [oid] hW2
            constructor
            · exact reap_WF _ oid [] hW3
            · intro e he
              rcases List.mem_cons.mp he with he1 | he1
              · subst he1
                show extendedEdge t.status TaskStatus.failed = true
                rw [hrun]
                decide
              · exact hev3 e he1
          next hrc =>
            constructor
            · exact reap_WF _ oid [] hW2
            · intro e he
              rcases List.mem_cons.mp he with he1 | he1
              · subst he1
                show extendedEdge t.status TaskStatus.failed = true
                rw [hrun]
                decide
              · cases he1
    next hex => exact ⟨h, fun e he => absurd he (List.not_mem_nil e)⟩

/-- A freshly constructed `TaskManager` is well-formed. -/
theorem initState_WF (maxWorkers n0 : Nat) : WF (initState maxWorkers n0) [] :=
  ⟨fun p hp => absurd hp (List.not_mem_nil p),
   fun qe hqe => absurd hqe (List.not_mem_nil qe),
   fun o ho => absurd ho (List.not_mem_nil o),
   List.nodup_nil, List.nodup_nil⟩

/-- Well-formedness and the edge bound, threaded through a whole run. -/
theorem runOps_WF_aux (ops : List Op) (s : MState) (evs : List Event)
    (h : WF s []) (hev : ∀ e ∈ evs, extendedEdge e.src e.dst = true) :
    WF (List.foldl
      (fun acc op =>
        let (s2, evs2) := applyOp acc.1 op
        (s2, acc.2 ++ evs2)) (s, evs) ops).1 [] ∧
    ∀ e ∈ (List.foldl
      (fun acc op =>
        let (s2, evs2) := applyOp acc.1 op
        (s2, acc.2 ++ evs2)) (s, evs) ops).2,
      extendedEdge e.src e.dst = true := by
  induction ops generalizing s evs with
  | nil => exact ⟨h, hev⟩
  | cons op rest ih =>
    obtain ⟨h1, h2⟩ := applyOp_WF s op h
    refine ih (applyOp s op).1 (evs ++ (applyOp s op).2) h1 ?_
    intro e he
    rcases List.mem_append.mp he with he1 | he1
    · exact hev e he1
    · exact h2 e he1

/-- C1 (amended): in every reachable execution, every observed status
transition is either a §4.1 edge or one of the two extra edges the code
realises — `RETRYING → QUEUED` (a retried task whose dependencies are met is
queued directly, never passing through `PENDING`) and
`CANCELLED → RUNNING` (a task cancelled while sitting in the queue is still
popped and dispatched). -/
theorem C1_transition_edges (maxWorkers n0 : Nat) (ops : List Op) :
    ∀ e ∈ (runOps (initState maxWorkers n0) ops).2,
      extendedEdge e.src e.dst = true := by
  intro e he
  exact (runOps_WF_aux ops (initState maxWorkers n0) []
    (initState_WF maxWorkers n0)
    (fun e2 he2 => absurd he2 (List.not_mem_nil e2))).2 e he

/-- Witness for `C1_transition_edges`: the promotion event of a concrete
`create_task` call is an allowed edge. -/
theorem C1_witness :
    (⟨0, TaskStatus.pending, TaskStatus.queued⟩ : Event) ∈
      (runOps (initState 5 1000)
        [Op.create "c" "health_check" false 2 none 3 300 []]).2 ∧
    extendedEdge TaskStatus.pending TaskStatus.queued = true :=
  ⟨by decide,
   C1_transition_edges 5 1000
     [Op.create "c" "health_check" false 2 none 3 300 []]
     ⟨0, TaskStatus.pending, TaskStatus.queued⟩ (by decide)⟩

/-- Counterexample to C1 as stated: create a task (it is queued
immediately), cancel it while it sits in the queue (this succeeds), then run
one loop tick — the queue still holds the object, so the dispatcher pops it
and marks it `RUNNING`: the run emits a `CANCELLED → RUNNING` transition,
which is not an edge of §4.1. -/
theorem C1_counterexample :
    (⟨0, TaskStatus.cancelled, TaskStatus.running⟩ : Event) ∈
      (runOps (initState 5 1000)
        [Op.create "c" "health_check" false 2 none 3 300 [],
         Op.cancel "health_check_1000", Op.tick]).2 ∧
    specEdge TaskStatus.cancelled TaskStatus.running = false := by
  constructor
  · decide
  · decide

/-! ### The heap invariant of the priority queue -/

theorem qlt_false_iff (a b : QEntry) :
    qlt a b = false ↔ a.priority ≤ b.priority := by
  simp [qlt, Nat.not_lt]

theorem qlt_true_iff (a b : QEntry) :
    qlt a b = true ↔ b.priority < a.priority := by
  simp [qlt]

theorem listGetD_listSet_self {α : Type} (l : List α) (i : Nat) (v d : α)
    (h : i < l.length) : listGetD (listSet l i v) i d = v := by
  induction l generalizing i with
  | nil => cases h
  | cons x xs ih =>
    cases i with
    | zero => rfl
    | succ i => exact ih i (Nat.lt_of_succ_lt_succ h)

theorem listGetD_default_irrel {α : Type} (l : List α) (i : Nat) (d d2 : α)
    (h : i < l.length) : listGetD l i d = listGetD l i d2 := by
  induction l generalizing i with
  | nil => cases h
  | cons x xs ih =>
    cases i with
    | zero => rfl
    | succ i => exact ih i (Nat.lt_of_succ_lt_succ h)

theorem listGetD_append_left {α : Type} (l l2 : List α) (i : Nat) (d : α)
    (h : i < l.length) : listGetD (l ++ l2) i d = listGetD l i d := by
  induction l generalizing i with
  | nil => cases h
  | cons x xs ih =>
    cases i with
    | zero => rfl
    | succ i => exact ih i (Nat.lt_of_succ_lt_succ h)

theorem listGetD_dropLast {α : Type} (l : List α) (i : Nat) (d : α)
    (h : i < l.dropLast.length) :
    listGetD l.dropLast i d = listGetD l i d := by
  induction l generalizing i with
  | nil => cases h
  | cons x xs ih =>
    cases xs with
    | nil => simp at h
    | cons y tl =>
      cases i with
      | zero => rfl
      | succ i =>
        have h2 : i < (y :: tl).dropLast.length := by
          simpa using Nat.lt_of_succ_lt_succ h
        exact ih i h2

theorem qpri_listSet_self (l : List QEntry) (i : Nat) (v : QEntry)
    (h : i < l.length) : qpri (listSet l i v) i = v.priority := by
  unfold qpri
  rw [listGetD_listSet_self _ _ _ _ h]

theorem qpri_listSet_ne (l : List QEntry) (i j : Nat) (v : QEntry)
    (h : j ≠ i) : qpri (listSet l i v) j = qpri l j := by
  unfold qpri
  rw [listGetD_listSet_ne _ _ _ _ _ h]

/-- `heapq._siftdown` restores the full heap property: if the virtual array
(the hole at `pos` filled with `newitem`) satisfies every heap edge except
the one leading up from `pos`, and the hole's children are bounded by the
value sitting at the hole's parent, then sifting `newitem` up yields a
heap. -/
theorem siftdownFuel_heapProp (fuel : Nat) (heap : List QEntry) (pos : Nat)
    (newitem : QEntry) (hfuel : pos ≤ fuel) (hpos : pos < heap.length)
    (ha : ∀ i, 0 < i → i < heap.length → i ≠ pos →
      qpri (listSet heap pos newitem) i ≤
        qpri (listSet heap pos newitem) ((i - 1) / 2))
    (hc : ∀ c, 0 < pos → (c - 1) / 2 = pos → c < heap.length →
      qpri heap c ≤ qpri heap ((pos - 1) / 2)) :
    HeapProp (siftdownFuel fuel heap 0 pos newitem) := by
  induction fuel generalizing heap pos with
  | zero =>
    have hp0 : pos = 0 := Nat.le_zero.mp hfuel
    subst hp0
    simp only [siftdownFuel]
    intro i hi hlen
    rw [listSet_length] at hlen
    exact ha i hi hlen (Nat.pos_iff_ne_zero.mp hi)
  | succ fuel ih =>
    simp only [siftdownFuel]
    split
    next hp0 =>
      have hpplt : (pos - 1) / 2 < pos := by omega
      have hpplen : (pos - 1) / 2 < heap.length := Nat.lt_trans hpplt hpos
      have hppne : (pos - 1) / 2 ≠ pos := Nat.ne_of_lt hpplt
      have hPpr : (listGetD heap ((pos - 1) / 2) (⟨0, 0⟩ : QEntry)).priority =
          qpri heap ((pos - 1) / 2) := rfl
      have hVpos : qpri (listSet heap pos newitem) pos = newitem.priority :=
        qpri_listSet_self _ _ _ hpos
      have hVother : ∀ j, j ≠ pos →
          qpri (listSet heap pos newitem) j = qpri heap j :=
        fun j hj => qpri_listSet_ne _ _ _ _ hj
      rw [listGetD_default_irrel heap ((pos - 1) / 2) newitem ⟨0, 0⟩ hpplen]
      split
      next hswap =>
        rw [qlt_true_iff, hPpr] at hswap
        have hlen2 : (listSet heap pos
            (listGetD heap ((pos - 1) / 2) ⟨0, 0⟩)).length = heap.length :=
          listSet_length _ _ _
        have hV2pp : qpri (listSet (listSet heap pos
            (listGetD heap ((pos - 1) / 2) ⟨0, 0⟩)) ((pos - 1) / 2)
            newitem) ((pos - 1) / 2) = newitem.priority :=
          qpri_listSet_self _ _ _ (by rw [hlen2]; exact hpplen)
        have hV2pos : qpri (listSet (listSet heap pos
            (listGetD heap ((pos - 1) / 2) ⟨0, 0⟩)) ((pos - 1) / 2)
            newitem) pos = qpri heap ((pos - 1) / 2) := by
          rw [qpri_listSet_ne _ _ _ _ hppne.symm]
          rw [qpri_listSet_self _ _ _ hpos]
          rfl
        have hV2other : ∀ j, j ≠ pos → j ≠ (pos - 1) / 2 →
            qpri (listSet (listSet heap pos
              (listGetD heap ((pos - 1) / 2) ⟨0, 0⟩)) ((pos - 1) / 2)
              newitem) j = qpri heap j := by
          intro j hj1 hj2
          rw [qpri_listSet_ne _ _ _ _ hj2, qpri_listSet_ne _ _ _ _ hj1]
        refine ih _ _ (by omega) (by rw [hlen2]; exact hpplen) ?_ ?_
        · intro i hi hlen hne
          rw [hlen2] at hlen
          by_cases hip : i = pos
          · subst hip
            rw [hV2pos]
            rw [show (i - 1) / 2 = (i - 1) / 2 from rfl]
            rw [hV2pp]
            exact Nat.le_of_lt hswap
          · rw [hV2other i hip hne]
            by_cases hq1 : (i - 1) / 2 = pos
            · rw [hq1, hV2pos]
              have hi0 : 0 < i := hi
              exact hc i hp0 hq1 hlen
            · by_cases hq2 : (i - 1) / 2 = (pos - 1) / 2
              · rw [hq2, hV2pp]
                have h5 := ha i hi hlen hip
                rw [hVother i hip, hq2, hVother _ hppne] at h5
                exact Nat.le_of_lt (Nat.lt_of_le_of_lt h5 hswap)
              · rw [hV2other _ hq1 hq2]
                have h5 := ha i hi hlen hip
                rw [hVother i hip, hVother _ hq1] at h5
                exact h5
        · intro c hpp0 hparent hclen
          rw [hlen2] at hclen
          have hgpne : ((pos - 1) / 2 - 1) / 2 ≠ pos := by omega
          have hgplen : ((pos - 1) / 2 - 1) / 2 < heap.length := by
            refine Nat.lt_trans ?_ hpplen
            omega
          have hgpval : qpri (listSet heap pos
              (listGetD heap ((pos - 1) / 2) ⟨0, 0⟩))
              (((pos - 1) / 2 - 1) / 2) = qpri heap (((pos - 1) / 2 - 1) / 2) :=
            qpri_listSet_ne _ _ _ _ hgpne
          have hstepA : qpri heap ((pos - 1) / 2) ≤
              qpri heap (((pos - 1) / 2 - 1) / 2) := by
            have h5 := ha ((pos - 1) / 2) hpp0 hpplen hppne
            rw [hVother _ hppne, hVother _ hgpne] at h5
            exact h5
          by_cases hcp : c = pos
          · subst hcp
            rw [qpri_listSet_self _ _ _ hpos, hgpval]
            exact hstepA
          · have hc0 : 0 < c := by omega
            rw [qpri_listSet_ne _ _ _ _ hcp, hgpval]
            have h5 := ha c hc0 hclen hcp
            rw [hVother c hcp, hparent, hVother _ hppne] at h5
            exact Nat.le_trans h5 hstepA
      next hswap =>
        rw [Bool.not_eq_true] at hswap
        rw [qlt_false_iff, hPpr] at hswap
        intro i hi hlen
        rw [listSet_length] at hlen
        by_cases hip : i = pos
        · subst hip
          rw [hVpos, hVother _ hppne]
          exact hswap
        · exact ha i hi hlen hip
    next hp0 =>
      have hpz : pos = 0 := by omega
      subst hpz
      intro i hi hlen
      rw [listSet_length] at hlen
      exact ha i hi hlen (Nat.pos_iff_ne_zero.mp hi)

theorem qpri_append_left (l l2 : List QEntry) (i : Nat) (h : i < l.length) :
    qpri (l ++ l2) i = qpri l i := by
  unfold qpri
  rw [listGetD_append_left _ _ _ _ h]

theorem qpri_dropLast (l : List QEntry) (i : Nat)
    (h : i < l.dropLast.length) : qpri l.dropLast i = qpri l i := by
  unfold qpri
  rw [listGetD_dropLast _ _ _ h]

/-- `heapq.heappush` preserves the heap invariant. -/
theorem heappush_heapProp (l : List QEntry) (e : QEntry) (h : HeapProp l) :
    HeapProp (heappush l e) := by
  simp only [heappush]
  have hlen : (l ++ [e]).length - 1 = l.length := by simp
  rw [hlen]
  apply siftdownFuel_heapProp
  · exact Nat.le_refl _
  · simp
  · intro i hi hlen2 hne
    rw [listSet_append_length]
    simp only [List.length_append, List.length_cons, List.length_nil]
      at hlen2
    have hilt : i < l.length := by omega
    have hplt : (i - 1) / 2 < l.length := by omega
    rw [qpri_append_left _ _ _ hilt, qpri_append_left _ _ _ hplt]
    exact h i hi hilt
  · intro c hpos hparent hclen
    exfalso
    simp only [List.length_append, List.length_cons, List.length_nil]
      at hclen
    omega

/-- The descending loop of `heapq._siftup` keeps every heap edge that does
not lead up from the hole, while the hole moves to a leaf. -/
theorem siftupLoop_heapInv (fuel : Nat) (A : List QEntry) (pos : Nat)
    (newitem : QEntry) (endpos : Nat)
    (hend : endpos = A.length) (hfuel : endpos ≤ fuel + pos)
    (hpos : pos < A.length)
    (hd : ∀ i, 0 < i → i < A.length → (i - 1) / 2 ≠ pos →
      qpri A i ≤ qpri A ((i - 1) / 2))
    (hg : ∀ x, 0 < pos → (x - 1) / 2 = pos → x < A.length →
      qpri A x ≤ qpri A ((pos - 1) / 2)) :
    (∀ i, 0 < i → i < A.length →
      (i - 1) / 2 ≠ (siftupLoop fuel A pos newitem endpos).2 →
      qpri (siftupLoop fuel A pos newitem endpos).1 i ≤
        qpri (siftupLoop fuel A pos newitem endpos).1 ((i - 1) / 2)) ∧
    (siftupLoop fuel A pos newitem endpos).1.length = A.length ∧
    (siftupLoop fuel A pos newitem endpos).2 < A.length ∧
    endpos ≤ 2 * (siftupLoop fuel A pos newitem endpos).2 + 1 := by
  induction fuel generalizing A pos with
  | zero => exact ⟨hd, rfl, hpos, by omega⟩
  | succ fuel ih =>
    simp only [siftupLoop]
    split
    next hchild =>
      set j := if (2 * pos + 1 + 1 < endpos : Bool) &&
          !qlt (listGetD A (2 * pos + 1) newitem)
            (listGetD A (2 * pos + 1 + 1) newitem) then 2 * pos + 1 + 1
        else 2 * pos + 1 with hj
      have hjrange : 2 * pos + 1 ≤ j ∧ j < endpos := by
        rw [hj]
        split
        next hcond =>
          simp only [Bool.and_eq_true] at hcond
          exact ⟨by omega, of_decide_eq_true hcond.1⟩
        next => exact ⟨Nat.le_refl _, hchild⟩
      have hjub : j ≤ 2 * pos + 2 := by
        rw [hj]; split <;> omega
      have hjlen : j < A.length := hend ▸ hjrange.2
      have hjpar : (j - 1) / 2 = pos := by omega
      have hjpos : pos < j := by omega
      have hsel : ∀ s, 0 < s → (s - 1) / 2 = pos → s < endpos →
          qpri A s ≤ qpri A j := by
        intro s hs0 hs hslen
        have hsrange : s = 2 * pos + 1 ∨ s = 2 * pos + 2 := by omega
        rw [hj]
        split
        next hcond =>
          simp only [Bool.and_eq_true, Bool.not_eq_true'] at hcond
          have hle := (qlt_false_iff _ _).mp hcond.2
          rw [listGetD_default_irrel A (2 * pos + 1) newitem ⟨0, 0⟩
              (by omega),
            listGetD_default_irrel A (2 * pos + 1 + 1) newitem ⟨0, 0⟩
              (by rw [← hend]; exact of_decide_eq_true hcond.1)] at hle
          rcases hsrange with hs2 | hs2 <;> subst hs2
          · exact hle
          · exact Nat.le_refl _
        next hcond =>
          rcases hsrange with hs2 | hs2 <;> subst hs2
          · exact Nat.le_refl _
          · simp only [Bool.and_eq_true, not_and, Bool.not_eq_true',
              Bool.not_eq_false] at hcond
            have hrp : (2 * pos + 1 + 1 < endpos : Bool) = true :=
              decide_eq_true hslen
            have hlt := (qlt_true_iff _ _).mp (hcond hrp)
            rw [listGetD_default_irrel A (2 * pos + 1) newitem ⟨0, 0⟩
                (by omega),
              listGetD_default_irrel A (2 * pos + 1 + 1) newitem ⟨0, 0⟩
                (by omega)] at hlt
            exact Nat.le_of_lt hlt
      rw [listGetD_default_irrel A j newitem ⟨0, 0⟩ hjlen]
      have hA2len : (listSet A pos (listGetD A j ⟨0, 0⟩)).length =
          A.length := listSet_length _ _ _
      have hA2pos : qpri (listSet A pos (listGetD A j ⟨0, 0⟩)) pos =
          qpri A j := by
        rw [qpri_listSet_self _ _ _ hpos]; rfl
      have hA2other : ∀ x, x ≠ pos →
          qpri (listSet A pos (listGetD A j ⟨0, 0⟩)) x = qpri A x :=
        fun x hx => qpri_listSet_ne _ _ _ _ hx
      obtain ⟨k1, k2, k3, k4⟩ := ih (listSet A pos (listGetD A j ⟨0, 0⟩)) j
        (by rw [hA2len]; exact hend) (by omega)
        (by rw [hA2len]; exact hjlen)
        (by
          intro i hi hlen hne
          rw [hA2len] at hlen
          by_cases hip : i = pos
          · rw [hip]
            have hp02 : 0 < pos := hip ▸ hi
            have hq : (pos - 1) / 2 ≠ pos := by omega
            rw [hA2pos, hA2other _ hq]
            exact hg j hp02 hjpar hjlen
          · rw [hA2other i hip]
            by_cases hq1 : (i - 1) / 2 = pos
            · rw [hq1, hA2pos]
              exact hsel i hi hq1 (by rw [hend]; exact hlen)
            · rw [hA2other _ hq1]
              exact hd i hi hlen hq1)
        (by
          intro x hj0 hxpar hxlen
          rw [hA2len] at hxlen
          have hxne : x ≠ pos := by omega
          rw [hA2other x hxne, hjpar, hA2pos]
          have h5 := hd x (by omega) hxlen (by omega)
          rw [hxpar] at h5
          exact h5)
      rw [hA2len] at k2 k3
      exact ⟨fun i hi hlen hne => k1 i hi (by rw [hA2len]; exact hlen) hne,
        k2, k3, k4⟩
    next hchild => exact ⟨hd, rfl, hpos, by omega⟩

/-- `heapq._siftup` at the root restores the full heap property, given every
edge not leading up from the root. -/
theorem siftup_heapProp (A : List QEntry) (h0 : 0 < A.length)
    (hd : ∀ i, 0 < i → i < A.length → (i - 1) / 2 ≠ 0 →
      qpri A i ≤ qpri A ((i - 1) / 2)) :
    HeapProp (siftup A 0) := by
  simp only [siftup]
  obtain ⟨hd2, hlen2, hpos2, hstop⟩ := siftupLoop_heapInv A.length A 0
    (listGetD A 0 ⟨0, 0⟩) A.length rfl (by omega) h0 hd
    (fun x hx => absurd hx (Nat.lt_irrefl 0))
  apply siftdownFuel_heapProp
  · exact Nat.le_refl _
  · rw [listSet_length, hlen2]; exact hpos2
  · intro i hi hlen hne
    rw [listSet_length, hlen2] at hlen
    rw [listSet_listSet_self]
    by_cases hpi : (i - 1) / 2 =
        (siftupLoop A.length A 0 (listGetD A 0 ⟨0, 0⟩) A.length).2
    · exfalso; omega
    · rw [qpri_listSet_ne _ _ _ _ hne, qpri_listSet_ne _ _ _ _ hpi]
      exact hd2 i hi hlen hpi
  · intro c hcpos hcpar hclen
    exfalso
    rw [listSet_length, hlen2] at hclen
    omega

/-- `heapq.heappop` preserves the heap invariant on the remaining heap. -/
theorem heappop_heapProp (l : List QEntry) (e : QEntry) (rest : List QEntry)
    (h : HeapProp l) (hp : heappop l = some (e, rest)) : HeapProp rest := by
  simp only [heappop] at hp
  cases hlast : l.getLast? with
  | none => rw [hlast] at hp; exact absurd hp (by simp)
  | some lastelt =>
    rw [hlast] at hp
    by_cases hre : l.dropLast.isEmpty
    · simp only [hre, if_true, ite_true, Option.some.injEq,
        Prod.mk.injEq] at hp
      obtain ⟨h1, h2⟩ := hp
      subst h2
      rw [List.isEmpty_iff] at hre
      intro i hi hlen
      rw [hre] at hlen
      simp at hlen
    · simp only [hre, if_false, ite_false, Bool.false_eq_true,
        Option.some.injEq, Prod.mk.injEq] at hp
      obtain ⟨h1, h2⟩ := hp
      subst h2
      have hdl : 0 < l.dropLast.length := by
        cases hdll : l.dropLast with
        | nil => rw [hdll] at hre; exact absurd rfl hre
        | cons a as => simp
      apply siftup_heapProp
      · rw [listSet_length]; exact hdl
      · intro i hi hlen hne
        rw [listSet_length] at hlen
        have hple : (i - 1) / 2 < l.dropLast.length := by omega
        rw [qpri_listSet_ne _ _ _ _ (Nat.pos_iff_ne_zero.mp hi),
          qpri_listSet_ne _ _ _ _ hne, qpri_dropLast _ _ hlen,
          qpri_dropLast _ _ hple]
        have hldrop : l.dropLast.length = l.length - 1 :=
          List.length_dropLast l
        have hil : i < l.length := by omega
        exact h i hi hil

/-- Every entry of a heap has priority at most the root's. -/
theorem heapProp_le_root (l : List QEntry) (h : HeapProp l) :
    ∀ i, i < l.length → qpri l i ≤ qpri l 0 := by
  intro i
  induction i using Nat.strong_induction_on with
  | _ i ih =>
    intro hlen
    rcases Nat.eq_zero_or_pos i with hz | hpos
    · subst hz; exact Nat.le_refl _
    · refine Nat.le_trans (h i hpos hlen) (ih ((i - 1) / 2) (by omega) ?_)
      exact Nat.lt_trans (by omega) hlen

theorem mem_listGetD {α : Type} (l : List α) (x : α) (d : α) (h : x ∈ l) :
    ∃ i, i < l.length ∧ listGetD l i d = x := by
  induction l with
  | nil => cases h
  | cons y ys ih =>
    rcases List.mem_cons.mp h with h1 | h1
    · exact ⟨0, by simp, h1.symm⟩
    · obtain ⟨i, hi, hget⟩ := ih h1
      exact ⟨i + 1, by simpa using Nat.succ_lt_succ hi, hget⟩

/-- `heapq.heappop` on a heap returns an entry of maximal priority. -/
theorem heappop_max (l : List QEntry) (e : QEntry) (rest : List QEntry)
    (h : HeapProp l) (hp : heappop l = some (e, rest)) :
    ∀ x ∈ l, x.priority ≤ e.priority := by
  simp only [heappop] at hp
  cases hlast : l.getLast? with
  | none => rw [hlast] at hp; exact absurd hp (by simp)
  | some lastelt =>
    rw [hlast] at hp
    have hne : l ≠ [] := by
      intro hc; rw [hc] at hlast; cases hlast
    have hgl : l.getLast hne = lastelt := by
      have h5 := List.getLast?_eq_getLast l hne
      rw [h5, Option.some.injEq] at hlast
      exact hlast
    have hdecomp : l.dropLast ++ [lastelt] = l := by
      rw [← hgl]
      exact List.dropLast_append_getLast hne
    by_cases hre : l.dropLast.isEmpty
    · simp only [hre, if_true, ite_true, Option.some.injEq,
        Prod.mk.injEq] at hp
      obtain ⟨h1, h2⟩ := hp
      subst h1
      rw [List.isEmpty_iff] at hre
      intro x hx
      rw [← hdecomp, hre, List.nil_append, List.mem_singleton] at hx
      rw [hx]
    · simp only [hre, if_false, ite_false, Bool.false_eq_true,
        Option.some.injEq, Prod.mk.injEq] at hp
      obtain ⟨h1, h2⟩ := hp
      have hdl : 0 < l.dropLast.length := by
        cases hdll : l.dropLast with
        | nil => rw [hdll] at hre; exact absurd rfl hre
        | cons a as => simp
      have h0l : 0 < l.length := by
        cases l with
        | nil => exact absurd rfl hne
        | cons y ys => simp
      have hept : e.priority = qpri l 0 := by
        rw [← h1]
        unfold qpri
        rw [listGetD_dropLast _ _ _ hdl,
          listGetD_default_irrel l 0 lastelt ⟨0, 0⟩ h0l]
      intro x hx
      obtain ⟨i, hi, hget⟩ := mem_listGetD l x ⟨0, 0⟩ hx
      have h5 := heapProp_le_root l h i hi
      rw [hept]
      unfold qpri at h5
      rw [hget] at h5
      exact h5

theorem queue_task_heap (s : MState) (oid : Nat)
    (h : HeapProp s.taskQueue) : HeapProp (queue_task s oid).1.taskQueue := by
  unfold queue_task
  cases getTaskObj s oid with
  | none => exact h
  | some t => exact heappush_heapProp _ _ h

theorem scan_heap (s : MState) (h : HeapProp s.taskQueue) :
    HeapProp (check_scheduled_tasks s).1.taskQueue := by
  exact foldl_inv scanStep (P := fun acc => HeapProp acc.1.taskQueue)
    (fun acc oid hP => by
      rcases scanStep_eq acc oid with heq | ⟨t, _, _, _, _, heq⟩ <;>
        rw [heq]
      · exact hP
      · exact queue_task_heap acc.1 oid hP)
    (s.tasks.map Prod.snd) (s, []) h

theorem dep_heap (s : MState) (cid : String) (h : HeapProp s.taskQueue) :
    HeapProp (check_dependent_tasks s cid).1.taskQueue := by
  exact foldl_inv (depStep cid) (P := fun acc => HeapProp acc.1.taskQueue)
    (fun acc oid hP => by
      rcases depStep_eq cid acc oid with heq | ⟨t, _, _, _, _, heq⟩ <;>
        rw [heq]
      · exact hP
      · exact queue_task_heap acc.1 oid hP)
    (s.tasks.map Prod.snd) (s, []) h

theorem retry_heap (s : MState) (tid : String) (h : HeapProp s.taskQueue) :
    HeapProp (retry_task s tid).2.1.taskQueue := by
  unfold retry_task
  cases h1 : assocFind s.tasks tid with
  | none => exact h
  | some oid =>
    cases h2 : getTaskObj s oid with
    | none => simp only [h2]; exact h
    | some t =>
      by_cases h3 : t.status = TaskStatus.failed
      · by_cases h4 : t.maxRetries ≤ t.retryCount
        · simp only [h2, h3, h4, ne_eq, not_true_eq_false, if_false,
            if_true, ite_true, ite_false]
          exact h
        · simp only [h2, h3, h4, ne_eq, not_true_eq_false,
            not_false_eq_true, if_false, if_true, ite_true, ite_false]
          split
          · exact queue_task_heap _ oid h
          · exact h
      · simp only [h2, h3, ne_eq, not_false_eq_true, if_true, ite_true]
        exact h

theorem execute_task_queue (s : MState) (oid : Nat) :
    (execute_task s oid).1.taskQueue = s.taskQueue := by
  unfold execute_task
  cases getTaskObj s oid <;> rfl

/-- Every scheduler operation preserves the heap invariant of the priority
queue. -/
theorem applyOp_heap (s : MState) (op : Op) (h : HeapProp s.taskQueue) :
    HeapProp (applyOp s op).1.taskQueue := by
  cases op with
  | advance dt => exact h
  | tick =>
    have h1 := scan_heap s h
    simp only [applyOp, tick]
    split
    · cases hpop : heappop (check_scheduled_tasks s).1.taskQueue with
      | none => exact h1
      | some pr =>
        obtain ⟨e2, rest⟩ := pr
        simp only [hpop]
        rw [execute_task_queue]
        exact heappop_heapProp _ e2 rest h1 hpop
    · exact h1
  | create name taskType hasFunction priority scheduledAt maxRetries
      timeout deps =>
    simp only [applyOp]
    split
    next tid s2 evs heq =>
      simp only [create_task] at heq
      split at heq
      · exact absurd heq (by simp)
      · split at heq
        all_goals
          simp only [Except.ok.injEq, Prod.mk.injEq] at heq
          obtain ⟨h1, h2, h3⟩ := heq
          subst h2
        · exact queue_task_heap _ _ h
        · exact h
    next heq => exact h
  | cancel tid =>
    simp only [applyOp]
    unfold cancel_task
    cases h1 : assocFind s.tasks tid with
    | none => exact h
    | some oid =>
      cases h2 : getTaskObj s oid with
      | none => simp only [h2]; exact h
      | some t =>
        by_cases h3 : t.status = TaskStatus.pending ∨
            t.status = TaskStatus.queued
        · simp only [h2]
          rw [if_pos h3]
          exact h
        · simp only [h2]
          rw [if_neg h3]
          exact h
  | retry tid => exact retry_heap s tid h
  | finish oid outcome =>
    simp only [applyOp]
    unfold finishTask
    split
    next hex =>
      cases hobj : getTaskObj s oid with
      | none => exact h
      | some t =>
        simp only [hobj]
        cases outcome with
        | ok res =>
          simp only []
          exact dep_heap _ t.id h
        | error msg =>
          simp only []
          split
          · exact retry_heap _ t.id h
          · exact h
    next hex => exact h

/-- The heap invariant holds in every reachable state. -/
theorem runState_heap (ops : List Op) (s : MState)
    (h : HeapProp s.taskQueue) : HeapProp (runState s ops).taskQueue := by
  induction ops generalizing s with
  | nil => exact h
  | cons op rest ih => exact ih (applyOp s op).1 (applyOp_heap s op h)

/-- C5 (amended): the queue dispatches by strict priority — in every
reachable state, popping the queue returns an entry whose priority is
maximal among all queued entries (so of two queued tasks with different
priorities the higher one is dispatched first) — and the concrete §8
scenario holds: with a single worker and tasks submitted in order
[Low, High, Normal], the observed dispatch order is High (object 1),
Normal (object 2), Low (object 0).  Equal-priority ties, however, follow
the binary-heap layout of `heapq`, not submission order. -/
theorem C5_priority_order :
    (∀ (maxWorkers n0 : Nat) (ops : List Op) (e : QEntry)
        (rest : List QEntry),
      heappop (runState (initState maxWorkers n0) ops).taskQueue =
        some (e, rest) →
      ∀ qe ∈ (runState (initState maxWorkers n0) ops).taskQueue,
        qe.priority ≤ e.priority) ∧
    ((runOps (initState 1 1000)
        [Op.create "L" "health_check" false TaskPriority.LOW none 3 300 [],
         Op.advance 1,
         Op.create "H" "health_check" false TaskPriority.HIGH none 3 300 [],
         Op.advance 1,
         Op.create "N" "health_check" false TaskPriority.NORMAL none 3 300
           [],
         Op.tick, Op.finish 1 (Except.ok "r"),
         Op.tick, Op.finish 2 (Except.ok "r"),
         Op.tick]).2.filter
        (fun e2 => e2.dst = TaskStatus.running)).map Event.oid =
      [1, 2, 0] := by
  constructor
  · intro maxWorkers n0 ops e rest hpop qe hqe
    have hheap : HeapProp (runState (initState maxWorkers n0)
        ops).taskQueue :=
      runState_heap ops (initState maxWorkers n0)
        (fun i hi hlen => absurd hlen (Nat.not_lt_zero i))
    exact heappop_max _ e rest hheap hpop qe hqe
  · decide

/-- Witness for `C5_priority_order`: in a concrete state holding a
low-priority and a high-priority entry, the pop returns the high-priority
entry and the queued low-priority entry is bounded by it. -/
theorem C5_witness :
    heappop (runState (initState 5 1000)
        [Op.create "a" "health_check" false 1 none 3 300 [],
         Op.advance 1,
         Op.create "b" "health_check" false 3 none 3 300 []]).taskQueue =
      some (⟨3, 1⟩, [⟨1, 0⟩]) ∧
    (⟨1, 0⟩ : QEntry) ∈ (runState (initState 5 1000)
        [Op.create "a" "health_check" false 1 none 3 300 [],
         Op.advance 1,
         Op.create "b" "health_check" false 3 none 3 300 []]).taskQueue ∧
    (⟨1, 0⟩ : QEntry).priority ≤ (⟨3, 1⟩ : QEntry).priority :=
  ⟨by decide, by decide,
   C5_priority_order.1 5 1000
     [Op.create "a" "health_check" false 1 none 3 300 [],
      Op.advance 1,
      Op.create "b" "health_check" false 3 none 3 300 []]
     ⟨3, 1⟩ [⟨1, 0⟩] (by decide) ⟨1, 0⟩ (by decide)⟩

/-- Counterexample to C5 as stated: four equal-priority tasks submitted one
clock millisecond apart (objects 0,1,2,3 in submission order) are dispatched
in binary-heap order 0,2,1,3 — object 2, submitted after object 1, is
dispatched first — so equal-priority ties do not follow submission (FIFO)
order. -/
theorem C5_counterexample :
    ((runOps (initState 5 1000)
        [Op.create "a" "health_check" false 2 none 3 300 [],
         Op.advance 1,
         Op.create "b" "health_check" false 2 none 3 300 [],
         Op.advance 1,
         Op.create "c" "health_check" false 2 none 3 300 [],
         Op.advance 1,
         Op.create "d" "health_check" false 2 none 3 300 [],
         Op.tick, Op.tick, Op.tick, Op.tick]).2.filter
        (fun e2 => e2.dst = TaskStatus.running)).map Event.oid =
      [0, 2, 1, 3] ∧ [0, 2, 1, 3] ≠ [0, 1, 2, 3] := by
  constructor
  · decide
  · decide
end Scheduler
